import Mathlib

/-! # Session core of the dragonfly server

A shallow embedding of `dragonfly/session/player.go`: the packet handlers of a
session, the verification and execution of inventory transactions, the
correlation of forms with their responses, the player list and the game mode;
and of `dragonfly/entity/direction.go`: the facing and the target block of an
entity.

Go state becomes explicit state passing: a handler `func (s *Session) h(pk) error`
is a function from the session and the packet to the returned error (`none` is
Go's `nil`) and the session afterwards.
-/

namespace Dragonfly

set_option maxRecDepth 1000000

/-! ## Items and stacks -/

/-- Modelled from the spec: the identity of an item (item kind + metadata), the
part of `item.Item` that the session core looks at. The interface `item.Item`
itself is declared outside these sources. -/
structure Item where
  kind : Nat
deriving DecidableEq, Repr

/-- Modelled from the spec: `block.Air`, the item a network stack of an unknown
ID is converted to. -/
def Air : Item := ⟨0⟩

/-- Modelled from the spec: `item.Stack`, an identity together with a count.
Counts are natural numbers: what `item.NewStack` makes of a negative count is
not part of these sources. -/
structure Stack where
  item : Item
  count : Nat
deriving DecidableEq, Repr

/-- Modelled from the spec: `item.NewStack`, the stack of `count` items `t`. -/
def NewStack (t : Item) (count : Nat) : Stack := ⟨t, count⟩

/-- Modelled from the spec: `Stack.Count`. -/
def Stack.Count (s : Stack) : Nat := s.count

/-- Modelled from the spec: `Stack.Empty`, a stack that holds no item. -/
def Stack.Empty (s : Stack) : Bool := s.count == 0

/-- Modelled from the spec: `Stack.Comparable`: two stacks are comparable if
their identity matches. -/
def Stack.Comparable (s s2 : Stack) : Bool := s.item == s2.item

/-- The network representation `protocol.ItemStack` of a stack: network ID,
metadata value and count. -/
structure ItemStack where
  NetworkID : Int
  MetadataValue : Int
  Count : Nat
deriving DecidableEq, Repr

/-- The functions `item.byID` and `item.toID` are linked in from the item
package; they are a parameter of the embedding. `item_byID id meta` is the item
registered under a network ID and metadata value, if any, and `item_toID` the
network ID and metadata value of an item. -/
structure ItemCodec where
  item_byID : Int → Int → Option Item
  item_toID : Item → Int × Int

/-- Go `stackFromItem`: converts an `item.Stack` to its network ItemStack
representation; an empty stack becomes the zero ItemStack. -/
def stackFromItem (codec : ItemCodec) (it : Stack) : ItemStack :=
  if it.Empty then ⟨0, 0, 0⟩
  else
    let (id, meta) := codec.item_toID it.item
    ⟨id, meta, it.Count⟩

/-- Go `stackToItem`: converts a network ItemStack to an `item.Stack`; an
unknown ID becomes air. -/
def stackToItem (codec : ItemCodec) (it : ItemStack) : Stack :=
  let t := match codec.item_byID it.NetworkID it.MetadataValue with
    | some t => t
    | none => Air
  NewStack t it.Count

/-! ## The inventory primitive -/

/-- Modelled from the spec: `inventory.Inventory`, a fixed-capacity slot
container. A slot that holds nothing holds a stack of count zero. -/
abbrev Inventory := List Stack

/-- Errors of the inventory primitive. -/
inductive InvError where
  | slotOutOfRange
  | full
  | notPresent
deriving DecidableEq, Repr

/-- Modelled from the spec: `inventory.New`, an inventory of `size` empty
slots. -/
def Inventory.New (size : Nat) : Inventory := List.replicate size ⟨Air, 0⟩

/-- Modelled from the spec: `Inventory.Item`, the get of the primitive: the
stack in a slot, an error for a slot outside the inventory. -/
def Inventory.Item (inv : Inventory) (slot : Nat) : Except InvError Stack :=
  match inv.get? slot with
  | some it => .ok it
  | none => .error .slotOutOfRange

/-- Modelled from the spec: `Inventory.SetItem`, the set of the primitive:
replaces the stack in a slot, an error for a slot outside the inventory. -/
def Inventory.SetItem (inv : Inventory) (slot : Nat) (it : Stack) :
    Except InvError Inventory :=
  if slot < inv.length then .ok (inv.set slot it) else .error .slotOutOfRange

/-- Adds the count of `it` to the first non-empty slot of the same identity, if
there is one. -/
def Inventory.mergeStack (it : Stack) : List Stack → Option (List Stack)
  | [] => none
  | s :: rest =>
    if s.count ≠ 0 ∧ s.item = it.item then
      some (⟨s.item, s.count + it.count⟩ :: rest)
    else
      (Inventory.mergeStack it rest).map (s :: ·)

/-- Puts `it` in the first empty slot, if there is one. -/
def Inventory.fillEmpty (it : Stack) : List Stack → Option (List Stack)
  | [] => none
  | s :: rest =>
    if s.count = 0 then some (it :: rest)
    else (Inventory.fillEmpty it rest).map (s :: ·)

/-- Modelled from the spec: `Inventory.AddItem`, the add by identity and count
of the primitive: the items join a stack of their identity or else take an
empty slot; without either the capacity is exceeded and the add fails. -/
def Inventory.AddItem (inv : Inventory) (it : Stack) : Except InvError Inventory :=
  if it.count = 0 then .ok inv
  else match Inventory.mergeStack it inv with
    | some r => .ok r
    | none =>
      match Inventory.fillEmpty it inv with
      | some r => .ok r
      | none => .error .full

/-- Takes `n` items of identity `t` out of the slots, front to back; `none` when
fewer than `n` are present. -/
def Inventory.takeOut (t : Dragonfly.Item) : Nat → List Stack → Option (List Stack)
  | 0, inv => some inv
  | _ + 1, [] => none
  | n + 1, s :: rest =>
    if s.item = t then
      if n + 1 < s.count then some (⟨s.item, s.count - (n + 1)⟩ :: rest)
      else (Inventory.takeOut t (n + 1 - s.count) rest).map (⟨Air, 0⟩ :: ·)
    else (Inventory.takeOut t (n + 1) rest).map (s :: ·)

/-- Modelled from the spec: `Inventory.RemoveItem`, the remove by identity and
count of the primitive: fails when the quantity or identity removed is not
present. -/
def Inventory.RemoveItem (inv : Inventory) (it : Stack) : Except InvError Inventory :=
  match Inventory.takeOut it.item it.count inv with
  | some r => .ok r
  | none => .error .notPresent

/-- Modelled from the spec: `Inventory.Empty`, the emptiness query of the
primitive: every slot is empty. -/
def Inventory.Empty (inv : Inventory) : Bool := inv.all (fun s => s.Empty)

/-! ## Session state -/

/-- A vector of three coordinates (`mgl32.Vec3`), over exact rationals. -/
structure Vec3 where
  x : ℚ
  y : ℚ
  z : ℚ
deriving DecidableEq

/-- Go `Vec3.Sub`. -/
def Vec3.Sub (a b : Vec3) : Vec3 := ⟨a.x - b.x, a.y - b.y, a.z - b.z⟩

/-- Go `Vec3.Add`. -/
def Vec3.Add (a b : Vec3) : Vec3 := ⟨a.x + b.x, a.y + b.y, a.z + b.z⟩

/-- A block position: three integer coordinates. -/
structure BlockPos where
  x : Int
  y : Int
  z : Int
deriving DecidableEq, Repr

/-- Modelled from the spec: an entity of the world, known to the session core by
its persistent identity only. -/
structure Entity where
  uid : Nat
deriving DecidableEq, Repr

/-- The primitives of the controllable entity whose effect lies outside the
session core; the model records that they were called. -/
inductive ControllableCall where
  | Respawn
  | UseItemOnEntity (e : Entity)
  | AttackEntity (e : Entity)
  | BreakBlock (pos : BlockPos)
  | UseItemOnBlock (pos : BlockPos) (face : Int) (clicked : Vec3)
  | UseItem
deriving DecidableEq

/-- Modelled from the spec: the controllable-entity primitive (position,
rotation, move and rotate by delta, sprint and sneak toggles), with a record of
the calls of its remaining primitives. -/
structure Controllable where
  position : Vec3
  yaw : ℚ
  pitch : ℚ
  sprinting : Bool
  sneaking : Bool
  calls : List ControllableCall
deriving DecidableEq

/-- Modelled from the spec: `Controllable.Move`, move by delta. -/
def Controllable.Move (c : Controllable) (delta : Vec3) : Controllable :=
  { c with position := c.position.Add delta }

/-- Modelled from the spec: `Controllable.Rotate`, rotate by delta. -/
def Controllable.Rotate (c : Controllable) (dyaw dpitch : ℚ) : Controllable :=
  { c with yaw := c.yaw + dyaw, pitch := c.pitch + dpitch }

/-- Records a call of one of the remaining primitives. -/
def Controllable.call (c : Controllable) (k : ControllableCall) : Controllable :=
  { c with calls := c.calls ++ [k] }

/-- Modelled from the spec: a form (`form.Form`) awaiting a response. `data` is
the JSON payload that SendForm marshals for it and `decodes` tells whether a
response payload decodes per the element schema of the form, which is when
`SubmitJSON` returns no error. -/
structure Form where
  data : List Nat
  decodes : List Nat → Bool

/-- The packets that the functions of this file write to the connection. The one
entry of a PlayerList packet is given by the entity it describes (UUID, name,
XUID and skin are read from that entity) and its entity unique ID. -/
inductive Packet where
  | NetworkChunkPublisherUpdate (Position : BlockPos) (Radius : Nat)
  | Respawn (Position : Vec3) (State : Nat) (EntityRuntimeID : Nat)
  | InventorySlot (WindowID : Int) (Slot : Nat) (NewItem : ItemStack)
  | ModalFormRequest (FormID : Nat) (FormData : List Nat)
  | PlayerList (ActionType : Nat) (Entry : Entity) (EntityUniqueID : Int)
  | AdventureSettings (Flags : Nat) (PermissionLevel : Nat) (PlayerUniqueID : Int)
      (ActionPermissions : Nat)
  | SetPlayerGameType (GameType : Int)
deriving DecidableEq

/-- The state of a session that `player.go` reads and writes. Maps are
association lists without duplicate keys; `packets` are the packets written with
`writePacket`, oldest first; `viewed` records the viewers that were sent the
items of the entity, `submitted` the calls of `SubmitJSON`, `debugLogs` the
number of debug messages logged. `viewers` is the world query for the viewers
of a position. `self` is the controllable `c` as an entity of the world, the
value that the entity maps hold for it; `entityRuntimeIDs` and `entities` are
the two directions of the entity registry and `currentEntityRuntimeID` its
counter. -/
structure Session where
  c : Controllable
  self : Entity
  inv : Inventory
  offHand : Inventory
  ui : Inventory
  heldSlot : Nat
  inTransaction : Nat
  entities : AList (fun _ : Nat => Entity)
  entityRuntimeIDs : AList (fun _ : Entity => Nat)
  currentEntityRuntimeID : Nat
  forms : AList (fun _ : Nat => Form)
  formID : Nat
  chunkLoader : Vec3
  chunkRadius : Int
  viewers : Vec3 → List Nat
  packets : List Packet
  viewed : List Nat
  submitted : List (Nat × List Nat)
  debugLogs : Nat

/-- Go `selfEntityRuntimeID`: the runtime ID of the own entity of a session. -/
def selfEntityRuntimeID : Nat := 1

/-- The window ID `protocol.WindowIDInventory` of the protocol library. -/
def WindowIDInventory : Int := 0

/-- The window ID `protocol.WindowIDOffHand` of the protocol library. -/
def WindowIDOffHand : Int := 119

/-- The window ID `protocol.WindowIDUI` of the protocol library. -/
def WindowIDUI : Int := 124

/-- Go `Session.writePacket`: queues a packet for the connection. -/
def Session.writePacket (s : Session) (pk : Packet) : Session :=
  { s with packets := s.packets ++ [pk] }

/-! ## Inventory transactions -/

/-- One action of an inventory transaction (`protocol.InventoryAction`): the
window ID and slot it names, the item the client claims the slot held and the
item the client claims it holds afterwards. -/
structure InventoryAction where
  WindowID : Int
  InventorySlot : Nat
  OldItem : ItemStack
  NewItem : ItemStack
deriving DecidableEq, Repr

/-- The kinds of transaction data of an InventoryTransaction packet. `Other`
stands for the kinds that the handler has no case for. -/
inductive TransactionData where
  | Normal
  | UseItemOnEntity (TargetEntityRuntimeID : Nat) (ActionType : Nat)
  | UseItem (ActionType : Nat) (BlockPosition : BlockPos) (BlockFace : Int)
      (ClickedPosition : Vec3)
  | Other

/-- The packet `packet.InventoryTransaction`. -/
structure InventoryTransaction where
  Actions : List InventoryAction
  TransactionData : TransactionData

/-- The action types of the protocol library for a UseItemOnEntity
transaction. -/
def UseItemOnEntityActionInteract : Nat := 0

/-- The attack action type of a UseItemOnEntity transaction. -/
def UseItemOnEntityActionAttack : Nat := 1

/-- The action types of the protocol library for a UseItem transaction. -/
def UseItemActionClickBlock : Nat := 0

/-- The click-air action type of a UseItem transaction. -/
def UseItemActionClickAir : Nat := 1

/-- The break-block action type of a UseItem transaction. -/
def UseItemActionBreakBlock : Nat := 2

/-- The errors that verifyTransaction returns, one for each of its returns. -/
inductive TxError where
  | unknownInventory (id : Int)
  | slotOutOfRange (slot : Nat) (window : Int)
  | differentItem (slot : Nat) (old actualOld : Stack)
  | inventoryFull (err : InvError)
  | notPresent (err : InvError)
  | unbalanced
deriving DecidableEq, Repr

/-- The errors that the handlers return, one for each of their returns. -/
inductive Error where
  | incorrectRuntimeID (id : Nat)
  | slotExceedsHotbar (slot : Nat)
  | notMainInventory (window : Nat)
  | formNotOpen (id : Nat)
  | formParse
  | respawnState (state : Nat)
  | invalidTransaction (err : TxError)
  | noEntity (id : Nat)
deriving DecidableEq, Repr

/-- Go `Session.invByID`: the inventory with the window ID passed, if there is
one. -/
def Session.invByID (s : Session) (id : Int) : Option Inventory :=
  if id = WindowIDInventory then some s.inv
  else if id = WindowIDOffHand then some s.offHand
  else if id = WindowIDUI then some s.ui
  else none

/-- The first loop of verifyTransaction: checks every action against the
inventory it names and adds its old item to the scratch inventory `temp`. -/
def verifyTransaction.addOld (codec : ItemCodec) (s : Session) :
    List InventoryAction → Inventory → Except TxError Inventory
  | [], temp => .ok temp
  | action :: rest, temp =>
    match s.invByID action.WindowID with
    | none => .error (.unknownInventory action.WindowID)
    | some inv =>
      match inv.Item action.InventorySlot with
      | .error _ => .error (.slotOutOfRange action.InventorySlot action.WindowID)
      | .ok actualOld =>
        let old := stackToItem codec action.OldItem
        if !actualOld.Comparable old || actualOld.Count != old.Count then
          .error (.differentItem action.InventorySlot old actualOld)
        else
          match temp.AddItem old with
          | .error err => .error (.inventoryFull err)
          | .ok temp => verifyTransaction.addOld codec s rest temp

/-- The second loop of verifyTransaction: removes the new item of every action
from the scratch inventory. -/
def verifyTransaction.removeNew (codec : ItemCodec) :
    List InventoryAction → Inventory → Except TxError Inventory
  | [], temp => .ok temp
  | action :: rest, temp =>
    match temp.RemoveItem (stackToItem codec action.NewItem) with
    | .error err => .error (.notPresent err)
    | .ok temp => verifyTransaction.removeNew codec rest temp

/-- Go `Session.verifyTransaction`: verifies the actions of a transaction;
`none` is the nil error. -/
def Session.verifyTransaction (codec : ItemCodec) (s : Session)
    (actions : List InventoryAction) : Option TxError :=
  match verifyTransaction.addOld codec s actions (Inventory.New 128) with
  | .error err => some err
  | .ok temp =>
    match verifyTransaction.removeNew codec actions temp with
    | .error err => some err
    | .ok temp => if !temp.Empty then some .unbalanced else none

/-- The function that HandleInventories gives the main inventory to call when a
slot changes: writes an InventorySlot packet unless a transaction is in
progress. -/
def Session.invSlotChanged (codec : ItemCodec) (s : Session) (slot : Nat)
    (item : Stack) : Session :=
  if s.inTransaction = 1 then s
  else s.writePacket (.InventorySlot WindowIDInventory slot (stackFromItem codec item))

/-- The function that HandleInventories gives the offhand inventory to call when
a slot changes. -/
def Session.offHandSlotChanged (codec : ItemCodec) (s : Session) (slot : Nat)
    (item : Stack) : Session :=
  if s.inTransaction = 1 then s
  else s.writePacket (.InventorySlot WindowIDOffHand slot (stackFromItem codec item))

/-- The inventories are held by pointer: a successful SetItem on the inventory
with window ID `id` leaves the session with the new contents `inv` and calls the
slot-change function of that inventory. The function of the UI inventory is not
set in this file and writes nothing here. -/
def Session.stored (codec : ItemCodec) (s : Session) (id : Int) (inv : Inventory)
    (slot : Nat) (item : Stack) : Session :=
  if id = WindowIDInventory then Session.invSlotChanged codec { s with inv := inv } slot item
  else if id = WindowIDOffHand then
    Session.offHandSlotChanged codec { s with offHand := inv } slot item
  else if id = WindowIDUI then { s with ui := inv }
  else s

/-- What executeTransaction discards: the missing inventory of an unknown window
ID (in Go a nil inventory) and the error of SetItem. -/
inductive ExecError where
  | nilInventory
  | setItem (err : InvError)
deriving DecidableEq, Repr

/-- The body of the loop of executeTransaction: SetItem of the new item on the
inventory of the action. -/
def executeTransaction.step (codec : ItemCodec) (s : Session) (action : InventoryAction) :
    Except ExecError Session :=
  match s.invByID action.WindowID with
  | none => .error .nilInventory
  | some inv =>
    match inv.SetItem action.InventorySlot (stackToItem codec action.NewItem) with
    | .error err => .error (.setItem err)
    | .ok inv =>
      .ok (s.stored codec action.WindowID inv action.InventorySlot
        (stackToItem codec action.NewItem))

/-- Go `Session.executeTransaction`: executes all actions, discarding the
errors. -/
def Session.executeTransaction (codec : ItemCodec) (s : Session) :
    List InventoryAction → Session
  | [] => s
  | action :: rest =>
    match executeTransaction.step codec s action with
    | .ok s => Session.executeTransaction codec s rest
    | .error _ => Session.executeTransaction codec s rest

/-- The errors that executeTransaction discards, in the order of the actions. -/
def executeTransaction.discarded (codec : ItemCodec) (s : Session) :
    List InventoryAction → List ExecError
  | [] => []
  | action :: rest =>
    match executeTransaction.step codec s action with
    | .ok s => executeTransaction.discarded codec s rest
    | .error err => err :: executeTransaction.discarded codec s rest

/-- Modelled from the spec: `Session.entityFromRuntimeID`, the lookup by handle
in the entity registry of the session. -/
def Session.entityFromRuntimeID (s : Session) (id : Nat) : Option Entity :=
  s.entities.lookup id

/-- Go `Session.handleInventoryTransaction`. -/
def Session.handleInventoryTransaction (codec : ItemCodec) (s : Session)
    (pk : InventoryTransaction) : Option Error × Session :=
  match pk.TransactionData with
  | .Normal =>
    if pk.Actions.length = 0 then (none, s)
    else
      match s.verifyTransaction codec pk.Actions with
      | some err => (some (.invalidTransaction err), s)
      | none =>
        let s := { s with inTransaction := 1 }
        let s := s.executeTransaction codec pk.Actions
        (none, { s with inTransaction := 0 })
  | .UseItemOnEntity target actionType =>
    match s.entityFromRuntimeID target with
    | none => (some (.noEntity target), s)
    | some e =>
      if actionType = UseItemOnEntityActionInteract then
        (none, { s with c := s.c.call (.UseItemOnEntity e) })
      else if actionType = UseItemOnEntityActionAttack then
        (none, { s with c := s.c.call (.AttackEntity e) })
      else (none, s)
  | .UseItem actionType pos face clicked =>
    if actionType = UseItemActionBreakBlock then
      (none, { s with c := s.c.call (.BreakBlock pos) })
    else if actionType = UseItemActionClickBlock then
      (none, { s with c := s.c.call (.UseItemOnBlock pos face clicked) })
    else if actionType = UseItemActionClickAir then
      (none, { s with c := s.c.call .UseItem })
    else (none, s)
  | .Other => (none, s)

/-- The item that the session holds at a window ID and slot, if the window ID
resolves to an inventory and the slot is in its range. -/
def Session.itemAt (s : Session) (id : Int) (slot : Nat) : Option Stack :=
  match s.invByID id with
  | none => none
  | some inv =>
    match inv.Item slot with
    | .ok it => some it
    | .error _ => none

/-! ## Packet handlers -/

/-- The packet `packet.MovePlayer`, as far as the handler reads it. -/
structure MovePlayer where
  EntityRuntimeID : Nat
  Position : Vec3
  Pitch : ℚ
  Yaw : ℚ

/-- The packet `packet.MobEquipment`, as far as the handler reads it. -/
structure MobEquipment where
  EntityRuntimeID : Nat
  InventorySlot : Nat
  WindowID : Nat
deriving DecidableEq, Repr

/-- The packet `packet.PlayerAction`, as far as the handler reads it. -/
structure PlayerAction where
  EntityRuntimeID : Nat
  ActionType : Int
deriving DecidableEq, Repr

/-- The packet `packet.Respawn`, as far as the handler reads it. -/
structure Respawn where
  EntityRuntimeID : Nat
  State : Nat
deriving DecidableEq, Repr

/-- The packet `packet.ModalFormResponse`. -/
structure ModalFormResponse where
  FormID : Nat
  ResponseData : List Nat
deriving DecidableEq, Repr

/-- The action types of the protocol library that handlePlayerAction knows. -/
def PlayerActionStartSprint : Int := 9

/-- The stop-sprint action type. -/
def PlayerActionStopSprint : Int := 10

/-- The start-sneak action type. -/
def PlayerActionStartSneak : Int := 11

/-- The stop-sneak action type. -/
def PlayerActionStopSneak : Int := 12

/-- The respawn state `packet.RespawnStateReadyToSpawn` of the protocol
library. -/
def RespawnStateReadyToSpawn : Nat := 1

/-- The respawn state `packet.RespawnStateClientReadyToSpawn` of the protocol
library. -/
def RespawnStateClientReadyToSpawn : Nat := 2

/-- The conversion of a coordinate to an integer, which drops the fraction. -/
def truncate (q : ℚ) : Int := Int.tdiv q.num q.den

/-- Go `Session.handleMovePlayer`. -/
def Session.handleMovePlayer (s : Session) (pk : MovePlayer) : Option Error × Session :=
  if pk.EntityRuntimeID ≠ selfEntityRuntimeID then
    (some (.incorrectRuntimeID pk.EntityRuntimeID), s)
  else
    let s := { s with c := s.c.Move (pk.Position.Sub s.c.position) }
    let s := { s with c := s.c.Rotate (pk.Yaw - s.c.yaw) (pk.Pitch - s.c.pitch) }
    let s := { s with chunkLoader := pk.Position }
    let s := s.writePacket (.NetworkChunkPublisherUpdate
      ⟨truncate pk.Position.x, truncate pk.Position.y, truncate pk.Position.z⟩
      ((s.chunkRadius * 16) % 2 ^ 32).toNat)
    (none, s)

/-- Go `Session.handleMobEquipment`. -/
def Session.handleMobEquipment (s : Session) (pk : MobEquipment) : Option Error × Session :=
  if pk.EntityRuntimeID ≠ selfEntityRuntimeID then
    (some (.incorrectRuntimeID pk.EntityRuntimeID), s)
  else if pk.InventorySlot > 8 then
    (some (.slotExceedsHotbar pk.InventorySlot), s)
  else if (pk.WindowID : Int) ≠ WindowIDInventory then
    (some (.notMainInventory pk.WindowID), s)
  else
    let s := { s with heldSlot := pk.InventorySlot }
    let s := { s with viewed := s.viewed ++ s.viewers s.c.position }
    (none, s)

/-- Go `Session.handlePlayerAction`. -/
def Session.handlePlayerAction (s : Session) (pk : PlayerAction) : Option Error × Session :=
  if pk.EntityRuntimeID ≠ selfEntityRuntimeID then
    (some (.incorrectRuntimeID pk.EntityRuntimeID), s)
  else if pk.ActionType = PlayerActionStartSprint then
    (none, { s with c := { s.c with sprinting := true } })
  else if pk.ActionType = PlayerActionStopSprint then
    (none, { s with c := { s.c with sprinting := false } })
  else if pk.ActionType = PlayerActionStartSneak then
    (none, { s with c := { s.c with sneaking := true } })
  else if pk.ActionType = PlayerActionStopSneak then
    (none, { s with c := { s.c with sneaking := false } })
  else (none, s)

/-- Go `Session.handleRespawn`. -/
def Session.handleRespawn (s : Session) (pk : Respawn) : Option Error × Session :=
  if pk.EntityRuntimeID ≠ selfEntityRuntimeID then
    (some (.incorrectRuntimeID pk.EntityRuntimeID), s)
  else if pk.State ≠ RespawnStateClientReadyToSpawn then
    (some (.respawnState pk.State), s)
  else
    let s := { s with c := s.c.call .Respawn }
    let s := s.writePacket
      (.Respawn s.c.position RespawnStateReadyToSpawn selfEntityRuntimeID)
    (none, s)

/-! ## Forms -/

/-- The payload of a response to a form that was cancelled: the bytes of
`null`. -/
def nullBytes : List Nat := [110, 117, 108, 108]

/-- The number of outstanding forms, Go `len(s.forms)`. -/
def Session.formCount (s : Session) : Nat := s.forms.keys.length

/-- Go `Session.handleModalFormResponse`. The call of `SubmitJSON` is recorded
in `submitted`. -/
def Session.handleModalFormResponse (s : Session) (pk : ModalFormResponse) :
    Option Error × Session :=
  let f := s.forms.lookup pk.FormID
  let s := { s with forms := s.forms.erase pk.FormID }
  match f with
  | none => (some (.formNotOpen pk.FormID), s)
  | some f =>
    if pk.ResponseData = nullBytes then (none, s)
    else
      let s := { s with submitted := s.submitted ++ [(pk.FormID, pk.ResponseData)] }
      if f.decodes pk.ResponseData then (none, s) else (some .formParse, s)

/-- The part of Go `Session.SendForm` from the lock on: stores the form under
the next form ID and writes the request, after dropping one outstanding form if
there are more than 10. The order in which Go ranges over a map is not
specified: `pick` tells which key the range visits first. The JSON that the
first part of SendForm marshals for the form is `f.data`. -/
def Session.SendForm (s : Session) (f : Form) (pick : Nat) : Session :=
  let s :=
    if s.formCount > 10 then
      let s := { s with debugLogs := s.debugLogs + 1 }
      match s.forms.keys.get? (pick % s.formCount) with
      | some k => { s with forms := s.forms.erase k }
      | none => s
    else s
  let id := s.formID
  let s := { s with forms := s.forms.insert id f }
  let s := { s with formID := (s.formID + 1) % 2 ^ 32 }
  s.writePacket (.ModalFormRequest id f.data)

/-- A call of the form correlator: SendForm or handleModalFormResponse. -/
inductive FormCall where
  | send (f : Form) (pick : Nat)
  | respond (pk : ModalFormResponse)

/-- The session after one call of the form correlator. -/
def Session.formCall (s : Session) : FormCall → Session
  | .send f pick => s.SendForm f pick
  | .respond pk => (s.handleModalFormResponse pk).2

/-- The session after a sequence of calls of the form correlator. -/
def Session.formCalls (s : Session) : List FormCall → Session
  | [] => s
  | call :: rest => Session.formCalls (s.formCall call) rest

/-- A form of the examples, which decodes every payload. -/
def exampleForm : Form := ⟨[], fun _ => true⟩

/-! ## The player list and the entity registry -/

/-- The session passed to addToPlayerList and removeFromPlayerList, as far as
these read it: whether it is the receiving session itself (the comparison
`session != s` of pointers) and, for another session, its controllable entity
`session.c`. -/
inductive Peer where
  | self
  | other (c : Entity)
deriving DecidableEq, Repr

/-- The controllable entity `session.c` of the session passed. -/
def Session.peerEntity (s : Session) : Peer → Entity
  | .self => s.self
  | .other c => c

/-- The action type `packet.PlayerListActionAdd` of the protocol library. -/
def PlayerListActionAdd : Nat := 0

/-- The action type `packet.PlayerListActionRemove` of the protocol library. -/
def PlayerListActionRemove : Nat := 1

/-- The conversion `int64(x)` of an unsigned 64-bit number. -/
def toInt64 (x : Nat) : Int :=
  if x % 2 ^ 64 < 2 ^ 63 then ((x % 2 ^ 64 : Nat) : Int) else ((x % 2 ^ 64 : Nat) : Int) - 2 ^ 64

/-- The runtime ID that addToPlayerList gives the entity of the session passed:
1 for the session itself, else the counter after `atomic.AddUint64` added 1 to
it. -/
def addToPlayerList.runtimeID (s : Session) : Peer → Nat
  | .self => 1
  | .other _ => (s.currentEntityRuntimeID + 1) % 2 ^ 64

/-- Go `Session.addToPlayerList`. -/
def Session.addToPlayerList (s : Session) (session : Peer) : Session :=
  let c := s.peerEntity session
  let runtimeID := addToPlayerList.runtimeID s session
  let s :=
    match session with
    | .self => s
    | .other _ => { s with currentEntityRuntimeID := runtimeID }
  let s := { s with entityRuntimeIDs := s.entityRuntimeIDs.insert c runtimeID }
  let s := { s with entities := s.entities.insert runtimeID c }
  s.writePacket (.PlayerList PlayerListActionAdd c (toInt64 runtimeID))

/-- Go `Session.removeFromPlayerList`. The second delete reads
`s.entityRuntimeIDs[c]` after the first delete has removed `c`; a map gives
the zero value 0 for a key that it does not hold. -/
def Session.removeFromPlayerList (s : Session) (session : Peer) : Session :=
  let c := s.peerEntity session
  let s := { s with entityRuntimeIDs := s.entityRuntimeIDs.erase c }
  let s := { s with entities := s.entities.erase ((s.entityRuntimeIDs.lookup c).getD 0) }
  s.writePacket (.PlayerList PlayerListActionRemove c 0)

/-- A call on the player list of a session. -/
inductive PlayerListCall where
  | add (session : Peer)
  | remove (session : Peer)
deriving DecidableEq, Repr

/-- The session after one call on its player list. -/
def Session.playerListCall (s : Session) : PlayerListCall → Session
  | .add session => s.addToPlayerList session
  | .remove session => s.removeFromPlayerList session

/-- The session after a sequence of calls on its player list. -/
def Session.playerListCalls (s : Session) : List PlayerListCall → Session
  | [] => s
  | call :: rest => Session.playerListCalls (s.playerListCall call) rest

/-! ## Game mode -/

/-- Modelled from the spec: the game modes of `world/gamemode`: survival,
creative, adventure, spectator; `Other` stands for any other implementation of
the interface `gamemode.GameMode`. -/
inductive GameMode where
  | Survival
  | Creative
  | Adventure
  | Spectator
  | Other (tag : Nat)
deriving DecidableEq, Repr

/-- The adventure flag `packet.AdventureFlagWorldImmutable` of the protocol
library. -/
def AdventureFlagWorldImmutable : Nat := 0x1

/-- The adventure flag `packet.AdventureFlagNoPVP`. -/
def AdventureFlagNoPVP : Nat := 0x2

/-- The adventure flag `packet.AdventureFlagAllowFlight`. -/
def AdventureFlagAllowFlight : Nat := 0x40

/-- The adventure flag `packet.AdventureFlagNoClip`. -/
def AdventureFlagNoClip : Nat := 0x80

/-- The adventure flag `packet.AdventureFlagMuted`. -/
def AdventureFlagMuted : Nat := 0x400

/-- The game type `packet.GameTypeSurvival` of the protocol library. -/
def GameTypeSurvival : Int := 0

/-- The game type `packet.GameTypeCreative`. -/
def GameTypeCreative : Int := 1

/-- The game type `packet.GameTypeAdventure`. -/
def GameTypeAdventure : Int := 2

/-- The game type `packet.GameTypeCreativeSpectator`. -/
def GameTypeCreativeSpectator : Int := 4

/-- The permission level `packet.PermissionLevelMember` of the protocol
library. -/
def PermissionLevelMember : Nat := 1

/-- The action permissions that SendGameMode sends: build and mine, doors and
switches, open containers, attack players, attack mobs. -/
def memberActionPermissions : Nat := 0x1 ||| 0x2 ||| 0x4 ||| 0x8 ||| 0x10

/-- The switch of SendGameMode: the flags and the game type ID of a game
mode. -/
def SendGameMode.flagsAndID (mode : GameMode) : Nat × Int :=
  let flags : Nat := 0
  let id : Int := GameTypeSurvival
  match mode with
  | .Creative => (AdventureFlagAllowFlight, GameTypeCreative)
  | .Adventure => (flags ||| AdventureFlagWorldImmutable, GameTypeAdventure)
  | .Spectator =>
    (AdventureFlagWorldImmutable ||| AdventureFlagAllowFlight ||| AdventureFlagMuted |||
      AdventureFlagNoClip ||| AdventureFlagNoPVP, GameTypeCreativeSpectator)
  | _ => (flags, id)

/-- Go `Session.SendGameMode`. -/
def Session.SendGameMode (s : Session) (mode : GameMode) : Session :=
  let s := s.writePacket (.AdventureSettings (SendGameMode.flagsAndID mode).1
    PermissionLevelMember 1 memberActionPermissions)
  s.writePacket (.SetPlayerGameType (SendGameMode.flagsAndID mode).2)

/-! ## Direction of an entity (`dragonfly/entity/direction.go`) -/

/-- The type `world.Face`, an integer, is declared outside these sources. -/
structure Face where
  val : Int
deriving DecidableEq, Repr

/-- The faces are numbered as the block faces of the protocol, whose number
`handleInventoryTransaction` converts to a face as it is: down. -/
def Face.Down : Face := ⟨0⟩

/-- The face up. -/
def Face.Up : Face := ⟨1⟩

/-- The face `world.North`. -/
def Face.North : Face := ⟨2⟩

/-- The face `world.South`. -/
def Face.South : Face := ⟨3⟩

/-- The face `world.West`. -/
def Face.West : Face := ⟨4⟩

/-- The face `world.East`. -/
def Face.East : Face := ⟨5⟩

/-- Go `math.Mod` on exact rationals: the remainder of `x / y` that has the sign
of `x`. -/
def Mod (x y : ℚ) : ℚ := x - y * (truncate (x / y) : ℚ)

/-- Go `Facing`: the horizontal direction that an entity of the yaw passed is
facing. The last return gives the face 0. -/
def Facing (eYaw : ℚ) : Face :=
  let yaw := Mod (eYaw - 90) 360
  let yaw := if yaw < 0 then yaw + 360 else yaw
  if (yaw > 0 ∧ yaw < 45) ∨ (yaw > 315 ∧ yaw < 360) then Face.West
  else if yaw > 45 ∧ yaw < 135 then Face.North
  else if yaw > 135 ∧ yaw < 225 then Face.East
  else if yaw > 225 ∧ yaw < 315 then Face.South
  else ⟨0⟩

/-- Go `Vec3.Mul`: the vector scaled by a number. -/
def Vec3.Mul (a : Vec3) (c : ℚ) : Vec3 := ⟨a.x * c, a.y * c, a.z * c⟩

/-- Go `vec3ToPos`: the block position of a vector, the floor of each
coordinate. -/
def vec3ToPos (vec : Vec3) : BlockPos := ⟨Int.floor vec.x, Int.floor vec.y, Int.floor vec.z⟩

/-- Modelled from the spec: the entity passed to TargetBlock, as far as
TargetBlock reads it: its position, its direction vector (what DirectionVector
computes from yaw and pitch with sine, cosine and a square root, taken as
given), its eye height if it is Eyed, and the block query of its world, which
tells whether the block at a position is air. -/
structure Observer where
  position : Vec3
  directionVector : Vec3
  eyeHeight : Option ℚ
  isAir : BlockPos → Bool

/-- The position from which TargetBlock starts: the position of the entity,
raised by the eye height for an entity that has eyes. -/
def TargetBlock.start (e : Observer) : Vec3 :=
  match e.eyeHeight with
  | some h => e.position.Add ⟨0, h, 0⟩
  | none => e.position

/-- The number of values `i = 0, 0.5, 1, ...` below `maxDistance`: the number of
times that the loop of TargetBlock can run. -/
def TargetBlock.iterations (maxDistance : ℚ) : Nat := (Int.ceil (2 * maxDistance)).toNat

/-- The loop of TargetBlock, `for i := 0.0; i < maxDistance; i += step`, from the
value `i` and the vector `current` on. The first argument bounds the number of
runs; with `TargetBlock.iterations maxDistance` runs the loop ends by its own
condition. -/
def TargetBlock.loop (e : Observer) (maxDistance : ℚ) : Nat → ℚ → Vec3 → BlockPos
  | 0, _, current => vec3ToPos current
  | fuel + 1, i, current =>
    if i < maxDistance then
      let current := current.Add (e.directionVector.Mul (1 / 2))
      let pos := vec3ToPos current
      if !e.isAir pos then pos
      else TargetBlock.loop e maxDistance fuel (i + 1 / 2) current
    else vec3ToPos current

/-- Go `TargetBlock`: the target block of the entity passed. -/
def TargetBlock (e : Observer) (maxDistance : ℚ) : BlockPos :=
  TargetBlock.loop e maxDistance (TargetBlock.iterations maxDistance) 0 (TargetBlock.start e)

/-! ## Vocabulary of the properties -/

/-- The multiset of items that a list of stacks holds: every stack counts for
as many items of its identity as its count. -/
def itemsOf (l : List Stack) : Multiset Item :=
  (l.map (fun s => Multiset.replicate s.count s.item)).sum

/-- The identities of the non-empty slots. -/
def occupied (l : List Stack) : List Item :=
  (l.filter (fun s => s.count ≠ 0)).map Stack.item

/-- The items that the actions claim as old. -/
def oldItems (codec : ItemCodec) (actions : List InventoryAction) : List Stack :=
  actions.map (fun a => stackToItem codec a.OldItem)

/-- The items that the actions claim as new. -/
def newItems (codec : ItemCodec) (actions : List InventoryAction) : List Stack :=
  actions.map (fun a => stackToItem codec a.NewItem)

/-- The window ID of the action resolves to an inventory of the session and the
slot of the action is in the range of that inventory. -/
def Session.resolves (s : Session) (a : InventoryAction) : Prop :=
  match s.invByID a.WindowID with
  | some inv => a.InventorySlot < inv.length
  | none => False

instance (s : Session) (a : InventoryAction) : Decidable (s.resolves a) := by
  unfold Session.resolves
  split <;> infer_instance

/-- The inventory that the action names holds, at the slot that the action
names, the item that the action claims as old, in identity and in count. -/
def Session.holdsOld (codec : ItemCodec) (s : Session) (a : InventoryAction) : Prop :=
  s.itemAt a.WindowID a.InventorySlot = some (stackToItem codec a.OldItem)

instance (codec : ItemCodec) (s : Session) (a : InventoryAction) :
    Decidable (s.holdsOld codec a) := by
  unfold Session.holdsOld
  infer_instance

/-- The items held across the main, offhand and UI inventories of a session. -/
def Session.items (s : Session) : Multiset Item :=
  itemsOf s.inv + itemsOf s.offHand + itemsOf s.ui

/-- The (window, slot) pairs that the actions name. -/
def namedSlots (actions : List InventoryAction) : List (Int × Nat) :=
  actions.map (fun a => (a.WindowID, a.InventorySlot))

/-- The handles that a sequence of calls on the player list allocates to the
entities of other sessions, in call order. -/
def Session.allocated (s : Session) : List PlayerListCall → List Nat
  | [] => []
  | .add (.other c) :: rest =>
    addToPlayerList.runtimeID s (.other c) ::
      Session.allocated (s.addToPlayerList (.other c)) rest
  | call :: rest => Session.allocated (s.playerListCall call) rest

/-- The number of calls of addToPlayerList for another session. -/
def otherAdds : List PlayerListCall → Nat
  | [] => 0
  | .add (.other _) :: rest => otherAdds rest + 1
  | _ :: rest => otherAdds rest

/-- The call is for another session, whose entity is not `own`. -/
def PlayerListCall.forOther (own : Entity) : PlayerListCall → Prop
  | .add (.other c) => c ≠ own
  | .remove (.other c) => c ≠ own
  | _ => False

instance (own : Entity) (call : PlayerListCall) : Decidable (call.forOther own) := by
  unfold PlayerListCall.forOther
  split <;> infer_instance

/-- The yaw that Facing compares: the yaw of the entity less 90, reduced modulo
360 into the range from 0 to 360. -/
def normalizedYaw (eYaw : ℚ) : ℚ :=
  if Mod (eYaw - 90) 360 < 0 then Mod (eYaw - 90) 360 + 360 else Mod (eYaw - 90) 360

/-- The vector that TargetBlock samples in run `k` of its loop: the start moved
`k` times by half the direction vector. -/
def TargetBlock.sample (e : Observer) : Nat → Vec3
  | 0 => TargetBlock.start e
  | k + 1 => (TargetBlock.sample e k).Add (e.directionVector.Mul (1 / 2))

/-- The form IDs that the SendForm calls of a sequence allocate, in call
order. -/
def Session.sentIDs (s : Session) : List FormCall → List Nat
  | [] => []
  | .send f pick :: rest => s.formID :: Session.sentIDs (s.SendForm f pick) rest
  | .respond pk :: rest => Session.sentIDs (s.handleModalFormResponse pk).2 rest

/-- The number of SendForm calls of a sequence. -/
def sends : List FormCall → Nat
  | [] => 0
  | .send _ _ :: rest => sends rest + 1
  | .respond _ :: rest => sends rest

/-! ## Sessions of the examples -/

/-- The codec of the examples: a positive network ID is the item of that kind,
any other ID is unknown. -/
def exampleCodec : ItemCodec :=
  ⟨fun id _ => if 0 < id then some ⟨id.toNat⟩ else none, fun t => (t.kind, 0)⟩

/-- The network stack A x1 of the examples. -/
def stackA : ItemStack := ⟨1, 0, 1⟩

/-- The network stack B x1 of the examples. -/
def stackB : ItemStack := ⟨2, 0, 1⟩

/-- A session without items, entities or forms, its handle counter at the
reserved value 1. -/
def emptySession : Session :=
  { c := ⟨⟨0, 0, 0⟩, 0, 0, false, false, []⟩
    self := ⟨0⟩
    inv := Inventory.New 36
    offHand := Inventory.New 1
    ui := Inventory.New 51
    heldSlot := 0
    inTransaction := 0
    entities := ∅
    entityRuntimeIDs := ∅
    currentEntityRuntimeID := 1
    forms := ∅
    formID := 0
    chunkLoader := ⟨0, 0, 0⟩
    chunkRadius := 8
    viewers := fun _ => []
    packets := []
    viewed := []
    submitted := []
    debugLogs := 0 }

/-- The session of the examples of the spec: slot 3 of the main inventory holds
A x1 and slot 5 holds B x1. -/
def exampleSession : Session :=
  { emptySession with
    inv := ((Inventory.New 36).set 3 ⟨⟨1⟩, 1⟩).set 5 ⟨⟨2⟩, 1⟩ }

/-- A session whose UI inventory has 129 slots, slot `k` holding one item of
kind `k + 1`. -/
def crowdedSession : Session :=
  { emptySession with
    ui := (List.range 129).map (fun k => ⟨⟨k + 1⟩, 1⟩) }

/-- The transaction that leaves each of the 129 slots of the UI inventory of
`crowdedSession` as it is. -/
def crowdedActions : List InventoryAction :=
  (List.range 129).map (fun k => ⟨WindowIDUI, k, ⟨k + 1, 0, 1⟩, ⟨k + 1, 0, 1⟩⟩)

/-- A balanced transaction on the session of the examples that names slot 3
twice: {slot 3: A x1 -> B x1, slot 3: A x1 -> A x1, slot 5: B x1 -> A x1}. -/
def duplicateSlotActions : List InventoryAction :=
  [⟨WindowIDInventory, 3, stackA, stackB⟩, ⟨WindowIDInventory, 3, stackA, stackA⟩,
    ⟨WindowIDInventory, 5, stackB, stackA⟩]

/-- The session after the body of the loop of executeTransaction, the error
discarded. -/
def executeTransaction.next (codec : ItemCodec) (s : Session) (a : InventoryAction) :
    Session :=
  match executeTransaction.step codec s a with
  | .ok s1 => s1
  | .error _ => s

/-- An entity whose eyes are under water and that looks straight up: it stands
at height 64 with its eyes at 65.62, and every block below height 66 is not
air. -/
def submergedObserver : Observer :=
  { position := ⟨0, 64, 0⟩
    directionVector := ⟨0, 1, 0⟩
    eyeHeight := some (81 / 50)
    isAir := fun pos => decide (66 ≤ pos.y) }

/-- A session whose handle counter has reached 2^64 - 2, two adds before it
wraps. -/
def nearWrapSession : Session :=
  { emptySession with currentEntityRuntimeID := 2 ^ 64 - 2 }

/-! # Theorems -/

@[simp]
theorem itemsOf_nil : itemsOf [] = 0 := rfl

@[simp]
theorem itemsOf_cons (s : Stack) (l : List Stack) :
    itemsOf (s :: l) = Multiset.replicate s.count s.item + itemsOf l := by
  simp [itemsOf]

theorem itemsOf_append (l₁ l₂ : List Stack) :
    itemsOf (l₁ ++ l₂) = itemsOf l₁ + itemsOf l₂ := by
  induction l₁ with
  | nil => simp
  | cons s l ih => simp [ih, add_assoc]

theorem itemsOf_New (n : Nat) : itemsOf (Inventory.New n) = 0 := by
  induction n with
  | zero => rfl
  | succ n ih =>
    have : Inventory.New (n + 1) = ⟨Air, 0⟩ :: Inventory.New n := by
      simp [Inventory.New, List.replicate_succ]
    rw [this, itemsOf_cons, ih]; simp

theorem replicate_eq_zero_iff (n : Nat) (t : Item) :
    Multiset.replicate n t = 0 ↔ n = 0 := by
  constructor
  · intro h
    have := congrArg Multiset.card h
    simpa using this
  · rintro rfl; rfl

theorem Inventory.Empty_iff (inv : Inventory) : inv.Empty = true ↔ itemsOf inv = 0 := by
  induction inv with
  | nil => simp [Inventory.Empty]
  | cons s l ih =>
    have h : Inventory.Empty (s :: l) = (s.Empty && Inventory.Empty l) := by
      simp [Inventory.Empty]
    rw [h, itemsOf_cons, Bool.and_eq_true, ih, add_eq_zero, replicate_eq_zero_iff]
    simp [Stack.Empty]

theorem takeOut_some (t : Item) (inv : List Stack) :
    ∀ (n : Nat) (r : List Stack), Inventory.takeOut t n inv = some r →
      itemsOf inv = Multiset.replicate n t + itemsOf r := by
  induction inv with
  | nil =>
    intro n r h
    cases n with
    | zero => simp [Inventory.takeOut] at h; subst h; simp
    | succ n => simp [Inventory.takeOut] at h
  | cons s rest ih =>
    intro n r h
    cases n with
    | zero => simp [Inventory.takeOut] at h; subst h; simp
    | succ n =>
      simp only [Inventory.takeOut] at h
      split_ifs at h with h1 h2
      · simp only [Option.some.injEq] at h
        subst h
        rw [itemsOf_cons, itemsOf_cons, ← add_assoc, ← h1, ← Multiset.replicate_add]
        congr 2
        simp only
        omega
      · rw [Option.map_eq_some'] at h
        obtain ⟨r1, hr1, rfl⟩ := h
        rw [itemsOf_cons, itemsOf_cons, ih _ _ hr1, ← add_assoc, h1,
          ← Multiset.replicate_add]
        simp only [Multiset.replicate_zero, zero_add]
        congr 2
        omega
      · rw [Option.map_eq_some'] at h
        obtain ⟨r1, hr1, rfl⟩ := h
        rw [itemsOf_cons, itemsOf_cons, ih _ _ hr1, add_left_comm]

theorem takeOut_isSome (t : Item) (inv : List Stack) :
    ∀ n : Nat, (Inventory.takeOut t n inv).isSome = true ↔
      n ≤ Multiset.count t (itemsOf inv) := by
  induction inv with
  | nil =>
    intro n
    cases n with
    | zero => simp [Inventory.takeOut]
    | succ n => simp [Inventory.takeOut]
  | cons s rest ih =>
    intro n
    cases n with
    | zero => simp [Inventory.takeOut]
    | succ n =>
      simp only [Inventory.takeOut, itemsOf_cons, Multiset.count_add,
        Multiset.count_replicate]
      split_ifs with h1 h2
      · simp; omega
      · rw [Option.isSome_map', ih]; omega
      · rw [Option.isSome_map', ih]; omega

theorem occupied_cons (s : Stack) (l : List Stack) :
    occupied (s :: l) = if s.count ≠ 0 then s.item :: occupied l else occupied l := by
  unfold occupied
  by_cases h : s.count ≠ 0 <;> simp [List.filter_cons, h]

theorem mem_itemsOf (t : Item) (l : List Stack) : t ∈ itemsOf l ↔ t ∈ occupied l := by
  induction l with
  | nil => simp [occupied]
  | cons s l ih =>
    rw [itemsOf_cons, Multiset.mem_add, Multiset.mem_replicate, ih, occupied_cons]
    by_cases h : s.count ≠ 0
    · simp [h]
    · simp [h]

theorem mergeStack_some (it : Stack) (inv : List Stack) :
    ∀ r, Inventory.mergeStack it inv = some r →
      itemsOf r = itemsOf inv + Multiset.replicate it.count it.item ∧
        r.length = inv.length ∧ occupied r = occupied inv := by
  induction inv with
  | nil => intro r h; simp [Inventory.mergeStack] at h
  | cons s rest ih =>
    intro r h
    simp only [Inventory.mergeStack] at h
    split_ifs at h with h1
    · simp only [Option.some.injEq] at h
      subst h
      refine ⟨?_, by simp, ?_⟩
      · rw [itemsOf_cons, itemsOf_cons, Multiset.replicate_add, ← h1.2]
        simp only
        abel
      · rw [occupied_cons, occupied_cons]
        have : s.count + it.count ≠ 0 := by omega
        simp [h1.1, this]
    · rw [Option.map_eq_some'] at h
      obtain ⟨r1, hr1, rfl⟩ := h
      obtain ⟨e1, e2, e3⟩ := ih r1 hr1
      refine ⟨?_, by simp [e2], ?_⟩
      · rw [itemsOf_cons, itemsOf_cons, e1, add_assoc]
      · rw [occupied_cons, occupied_cons, e3]

theorem mergeStack_none (it : Stack) (inv : List Stack)
    (h : Inventory.mergeStack it inv = none) : it.item ∉ occupied inv := by
  induction inv with
  | nil => simp [occupied]
  | cons s rest ih =>
    simp only [Inventory.mergeStack] at h
    split_ifs at h with h1
    rw [Option.map_eq_none'] at h
    rw [occupied_cons]
    by_cases hc : s.count ≠ 0
    · rw [if_pos hc, List.mem_cons, not_or]
      exact ⟨fun e => h1 ⟨hc, e.symm⟩, ih h⟩
    · rw [if_neg hc]
      exact ih h

theorem fillEmpty_some (it : Stack) (hit : it.count ≠ 0) (inv : List Stack) :
    ∀ r, Inventory.fillEmpty it inv = some r →
      itemsOf r = itemsOf inv + Multiset.replicate it.count it.item ∧
        r.length = inv.length ∧ (occupied r).Perm (it.item :: occupied inv) := by
  induction inv with
  | nil => intro r h; simp [Inventory.fillEmpty] at h
  | cons s rest ih =>
    intro r h
    simp only [Inventory.fillEmpty] at h
    split_ifs at h with h1
    · simp only [Option.some.injEq] at h
      subst h
      refine ⟨?_, by simp, ?_⟩
      · rw [itemsOf_cons, itemsOf_cons, h1]
        rw [Multiset.replicate_zero, zero_add, add_comm]
      · rw [occupied_cons, occupied_cons]
        simp [h1, hit]
    · rw [Option.map_eq_some'] at h
      obtain ⟨r1, hr1, rfl⟩ := h
      obtain ⟨e1, e2, e3⟩ := ih r1 hr1
      refine ⟨?_, by simp [e2], ?_⟩
      · rw [itemsOf_cons, itemsOf_cons, e1, add_assoc]
      · rw [occupied_cons, occupied_cons]
        rw [if_pos h1, if_pos h1]
        exact (List.Perm.cons _ e3).trans (List.Perm.swap _ _ _)

theorem fillEmpty_none (it : Stack) (inv : List Stack)
    (h : Inventory.fillEmpty it inv = none) : (occupied inv).length = inv.length := by
  induction inv with
  | nil => simp [occupied]
  | cons s rest ih =>
    simp only [Inventory.fillEmpty] at h
    split_ifs at h with h1
    rw [Option.map_eq_none'] at h
    rw [occupied_cons]
    simp [h1, ih h]

theorem toFinset_itemsOf (l : List Stack) :
    (itemsOf l).toFinset = (occupied l).toFinset := by
  ext t
  simp [mem_itemsOf]

theorem AddItem_ok (inv : Inventory) (it : Stack) (hnd : (occupied inv).Nodup)
    (hcap : (itemsOf inv + Multiset.replicate it.count it.item).toFinset.card ≤ inv.length) :
    ∃ r, inv.AddItem it = .ok r ∧
      itemsOf r = itemsOf inv + Multiset.replicate it.count it.item ∧
      r.length = inv.length ∧ (occupied r).Nodup := by
  unfold Inventory.AddItem
  by_cases h0 : it.count = 0
  · exact ⟨inv, by simp [h0], by simp [h0], rfl, hnd⟩
  · rw [if_neg h0]
    cases hm : Inventory.mergeStack it inv with
    | some r =>
      obtain ⟨e1, e2, e3⟩ := mergeStack_some it inv r hm
      exact ⟨r, rfl, e1, e2, e3 ▸ hnd⟩
    | none =>
      have hnot := mergeStack_none it inv hm
      cases hf : Inventory.fillEmpty it inv with
      | some r =>
        obtain ⟨e1, e2, e3⟩ := fillEmpty_some it h0 inv r hf
        exact ⟨r, rfl, e1, e2, e3.nodup_iff.mpr (List.nodup_cons.mpr ⟨hnot, hnd⟩)⟩
      | none =>
        exfalso
        have hlen := fillEmpty_none it inv hf
        have hsub : (it.item :: occupied inv).toFinset ⊆
            (itemsOf inv + Multiset.replicate it.count it.item).toFinset := by
          intro t ht
          rw [Multiset.mem_toFinset, Multiset.mem_add, Multiset.mem_replicate, mem_itemsOf]
          rw [List.mem_toFinset, List.mem_cons] at ht
          rcases ht with rfl | ht
          · exact Or.inr ⟨h0, rfl⟩
          · exact Or.inl ht
        have hcard := Finset.card_le_card hsub
        rw [List.toFinset_card_of_nodup (List.nodup_cons.mpr ⟨hnot, hnd⟩),
          List.length_cons, hlen] at hcard
        omega

theorem itemAt_eq_some (s : Session) (id : Int) (slot : Nat) (it : Stack) :
    s.itemAt id slot = some it ↔
      ∃ inv, s.invByID id = some inv ∧ inv.Item slot = .ok it := by
  unfold Session.itemAt
  cases h : s.invByID id with
  | none => simp
  | some inv =>
    cases h2 : inv.Item slot with
    | error e => simp [h2]
    | ok x => simp [h2]

theorem addOld_ok (codec : ItemCodec) (s : Session) (actions : List InventoryAction) :
    ∀ temp : Inventory, (∀ a ∈ actions, s.holdsOld codec a) → (occupied temp).Nodup →
      (itemsOf temp + itemsOf (oldItems codec actions)).toFinset.card ≤ temp.length →
      ∃ r, verifyTransaction.addOld codec s actions temp = .ok r ∧
        itemsOf r = itemsOf temp + itemsOf (oldItems codec actions) := by
  induction actions with
  | nil => intro temp _ _ _; exact ⟨temp, rfl, by simp [oldItems]⟩
  | cons a rest ih =>
    intro temp hold hnd hcap
    obtain ⟨inv, hinv, hitem⟩ := (itemAt_eq_some _ _ _ _).mp (hold a (List.mem_cons_self _ _))
    have hrest : itemsOf (oldItems codec (a :: rest)) =
        Multiset.replicate (stackToItem codec a.OldItem).count (stackToItem codec a.OldItem).item
          + itemsOf (oldItems codec rest) := by
      simp [oldItems]
    rw [hrest, ← add_assoc] at hcap
    have hcap1 : (itemsOf temp + Multiset.replicate (stackToItem codec a.OldItem).count
        (stackToItem codec a.OldItem).item).toFinset.card ≤ temp.length := by
      refine le_trans (Finset.card_le_card ?_) hcap
      intro t
      simp only [Multiset.mem_toFinset, Multiset.mem_add]
      exact fun h => Or.inl h
    obtain ⟨r, hr, e1, e2, e3⟩ := AddItem_ok temp (stackToItem codec a.OldItem) hnd hcap1
    obtain ⟨r2, hr2, e4⟩ := ih r (fun b hb => hold b (List.mem_cons_of_mem _ hb)) e3
      (by rw [e1, e2]; exact hcap)
    refine ⟨r2, ?_, ?_⟩
    · simp [verifyTransaction.addOld, hinv, hitem, Stack.Comparable, Stack.Count, hr, hr2]
    · rw [e4, e1, hrest, add_assoc]

theorem removeNew_items (codec : ItemCodec) (actions : List InventoryAction) :
    ∀ temp r : Inventory, verifyTransaction.removeNew codec actions temp = .ok r →
      itemsOf temp = itemsOf (newItems codec actions) + itemsOf r := by
  induction actions with
  | nil =>
    intro temp r h
    simp only [verifyTransaction.removeNew, Except.ok.injEq] at h
    subst h
    simp [newItems]
  | cons a rest ih =>
    intro temp r h
    simp only [verifyTransaction.removeNew, Inventory.RemoveItem] at h
    cases ht : Inventory.takeOut (stackToItem codec a.NewItem).item
        (stackToItem codec a.NewItem).count temp with
    | none => simp [ht] at h
    | some r1 =>
      simp only [ht] at h
      rw [takeOut_some _ _ _ _ ht, ih r1 r h]
      simp [newItems, add_assoc]

theorem removeNew_ok (codec : ItemCodec) (actions : List InventoryAction) :
    ∀ temp : Inventory, itemsOf (newItems codec actions) ≤ itemsOf temp →
      ∃ r, verifyTransaction.removeNew codec actions temp = .ok r := by
  induction actions with
  | nil => intro temp _; exact ⟨temp, rfl⟩
  | cons a rest ih =>
    intro temp hle
    have hnew : itemsOf (newItems codec (a :: rest)) =
        Multiset.replicate (stackToItem codec a.NewItem).count (stackToItem codec a.NewItem).item
          + itemsOf (newItems codec rest) := by
      simp [newItems]
    rw [hnew] at hle
    have h1 : (stackToItem codec a.NewItem).count ≤
        Multiset.count (stackToItem codec a.NewItem).item (itemsOf temp) := by
      rw [Multiset.le_count_iff_replicate_le]
      exact le_trans (Multiset.le_add_right _ _) hle
    rw [← takeOut_isSome, Option.isSome_iff_exists] at h1
    obtain ⟨r1, hr1⟩ := h1
    have e := takeOut_some _ _ _ _ hr1
    rw [e] at hle
    obtain ⟨r, hr⟩ := ih r1 ((add_le_add_iff_left _).mp hle)
    exact ⟨r, by simp [verifyTransaction.removeNew, Inventory.RemoveItem, hr1, hr]⟩

theorem verify_iff_of_holdsOld (codec : ItemCodec) (s : Session)
    (actions : List InventoryAction) (hold : ∀ a ∈ actions, s.holdsOld codec a)
    (hcap : (itemsOf (oldItems codec actions)).toFinset.card ≤ 128) :
    s.verifyTransaction codec actions = none ↔
      itemsOf (oldItems codec actions) = itemsOf (newItems codec actions) := by
  have hnd : (occupied (Inventory.New 128)).Nodup := by
    have : occupied (Inventory.New 128) = [] := by
      apply List.eq_nil_of_subset_nil
      intro t ht
      rw [← mem_itemsOf, itemsOf_New] at ht
      simp at ht
    rw [this]; exact List.nodup_nil
  have hlen : (Inventory.New 128).length = 128 := by simp [Inventory.New]
  obtain ⟨temp, htemp, hitems⟩ := addOld_ok codec s actions (Inventory.New 128) hold hnd
    (by rw [itemsOf_New, zero_add, hlen]; exact hcap)
  rw [itemsOf_New, zero_add] at hitems
  unfold Session.verifyTransaction
  rw [htemp]
  constructor
  · intro h
    cases hr : verifyTransaction.removeNew codec actions temp with
    | error e => simp [hr] at h
    | ok r =>
      simp only [hr] at h
      have he : r.Empty = true := by
        by_contra hne
        simp [hne] at h
      rw [Inventory.Empty_iff] at he
      have := removeNew_items codec actions temp r hr
      rw [he, add_zero, hitems] at this
      exact this
  · intro hbal
    obtain ⟨r, hr⟩ := removeNew_ok codec actions temp (by rw [hitems, hbal])
    have := removeNew_items codec actions temp r hr
    rw [hitems, hbal] at this
    have he : itemsOf r = 0 := by
      have h2 : itemsOf (newItems codec actions) + 0 =
          itemsOf (newItems codec actions) + itemsOf r := by rw [add_zero]; exact this
      exact (add_left_cancel h2).symm
    rw [← Inventory.Empty_iff] at he
    simp [hr, he]

/-- C1 (amended): for every non-empty action list in which every window ID
resolves and every slot is in range, provided also that every claimed-old item
is the item actually held at its slot (identity and count) and that the
claimed-old items have at most 128 distinct identities (the capacity of the
scratch inventory), verifyTransaction returns no error if and only if the
multiset of claimed-old items equals the multiset of claimed-new items. In
particular, with slot 3 holding A x1 and B another item, the single-action
transaction {slot 3: A x1 -> B x1} is rejected. -/
theorem verifyTransaction_accepts_iff_balanced (codec : ItemCodec) (s : Session) :
    (∀ actions : List InventoryAction, actions ≠ [] →
      (∀ a ∈ actions, s.resolves a) →
      (∀ a ∈ actions, s.holdsOld codec a) →
      (itemsOf (oldItems codec actions)).toFinset.card ≤ 128 →
      (s.verifyTransaction codec actions = none ↔
        itemsOf (oldItems codec actions) = itemsOf (newItems codec actions))) ∧
    (∀ a b : ItemStack, a.Count = 1 → b.Count = 1 →
      (stackToItem codec a).item ≠ (stackToItem codec b).item →
      s.itemAt WindowIDInventory 3 = some (stackToItem codec a) →
      ∃ err, s.verifyTransaction codec [⟨WindowIDInventory, 3, a, b⟩] = some err) := by
  refine ⟨fun actions _ _ hold hcap => verify_iff_of_holdsOld codec s actions hold hcap, ?_⟩
  intro a b ha hb hne hslot
  have hiff := verify_iff_of_holdsOld codec s [⟨WindowIDInventory, 3, a, b⟩]
    (by intro x hx; rw [List.mem_singleton] at hx; subst hx; exact hslot)
    (by
      refine le_trans (Multiset.toFinset_card_le _) ?_
      simp [oldItems, itemsOf, stackToItem, NewStack, ha])
  cases hv : s.verifyTransaction codec [⟨WindowIDInventory, 3, a, b⟩] with
  | some err => exact ⟨err, rfl⟩
  | none =>
    exfalso
    have hbal := hiff.mp hv
    have hmem : (stackToItem codec a).item ∈
        itemsOf (newItems codec [⟨WindowIDInventory, 3, a, b⟩]) := by
      rw [← hbal]
      simp [oldItems, itemsOf, stackToItem, NewStack, ha, Multiset.mem_replicate]
    simp only [newItems, List.map_cons, List.map_nil, itemsOf_cons, itemsOf_nil, add_zero,
      Multiset.mem_replicate] at hmem
    exact hne hmem.2

/-- Witness of C1: in the session of the examples the swap of slots 3 and 5 is
accepted exactly if it is balanced, and {slot 3: A x1 -> B x1} is rejected. -/
theorem verifyTransaction_accepts_iff_balanced_witness :
    (exampleSession.verifyTransaction exampleCodec
        [⟨WindowIDInventory, 3, stackA, stackB⟩, ⟨WindowIDInventory, 5, stackB, stackA⟩] = none ↔
      itemsOf (oldItems exampleCodec
        [⟨WindowIDInventory, 3, stackA, stackB⟩, ⟨WindowIDInventory, 5, stackB, stackA⟩]) =
      itemsOf (newItems exampleCodec
        [⟨WindowIDInventory, 3, stackA, stackB⟩, ⟨WindowIDInventory, 5, stackB, stackA⟩])) ∧
    ∃ err, exampleSession.verifyTransaction exampleCodec
      [⟨WindowIDInventory, 3, stackA, stackB⟩] = some err :=
  ⟨(verifyTransaction_accepts_iff_balanced exampleCodec exampleSession).1
      [⟨WindowIDInventory, 3, stackA, stackB⟩, ⟨WindowIDInventory, 5, stackB, stackA⟩]
      (by decide) (by decide) (by decide) (by decide),
    (verifyTransaction_accepts_iff_balanced exampleCodec exampleSession).2 stackA stackB
      rfl rfl (by decide) (by decide)⟩

/-- Counterexample to C1 as stated: two balanced transactions whose window IDs
all resolve and whose slots are all in range are rejected. In the session of
the examples, slot 3 holds A x1 and {slot 3: B x1 -> B x1} is rejected because
the claimed-old item is not the item held. In the session with 129 different
items in its UI inventory, the transaction that leaves each of these slots as
it is is rejected because the scratch inventory of 128 slots is full. -/
theorem verifyTransaction_balanced_rejected :
    ((∀ a ∈ [(⟨WindowIDInventory, 3, stackB, stackB⟩ : InventoryAction)],
        exampleSession.resolves a) ∧
      itemsOf (oldItems exampleCodec [⟨WindowIDInventory, 3, stackB, stackB⟩]) =
        itemsOf (newItems exampleCodec [⟨WindowIDInventory, 3, stackB, stackB⟩]) ∧
      exampleSession.verifyTransaction exampleCodec [⟨WindowIDInventory, 3, stackB, stackB⟩] =
        some (.differentItem 3 ⟨⟨2⟩, 1⟩ ⟨⟨1⟩, 1⟩)) ∧
    ((∀ a ∈ crowdedActions, crowdedSession.resolves a) ∧
      (∀ a ∈ crowdedActions, crowdedSession.holdsOld exampleCodec a) ∧
      itemsOf (oldItems exampleCodec crowdedActions) =
        itemsOf (newItems exampleCodec crowdedActions) ∧
      crowdedSession.verifyTransaction exampleCodec crowdedActions =
        some (.inventoryFull .full)) := by
  refine ⟨⟨by decide, by decide, by decide⟩, ⟨by decide, by decide, rfl, by decide⟩⟩

theorem handle_normal_of_verify_some (codec : ItemCodec) (s : Session)
    (actions : List InventoryAction) (hne : actions ≠ []) (err : TxError)
    (hv : s.verifyTransaction codec actions = some err) :
    s.handleInventoryTransaction codec ⟨actions, .Normal⟩ =
      (some (.invalidTransaction err), s) := by
  have hlen : actions.length ≠ 0 := by
    intro h
    exact hne (List.length_eq_zero.mp h)
  simp [Session.handleInventoryTransaction, hlen, hv]

theorem handle_normal_of_verify_none (codec : ItemCodec) (s : Session)
    (actions : List InventoryAction) (hne : actions ≠ [])
    (hv : s.verifyTransaction codec actions = none) :
    s.handleInventoryTransaction codec ⟨actions, .Normal⟩ =
      (none, { Session.executeTransaction codec { s with inTransaction := 1 } actions with
        inTransaction := 0 }) := by
  have hlen : actions.length ≠ 0 := by
    intro h
    exact hne (List.length_eq_zero.mp h)
  simp [Session.handleInventoryTransaction, hlen, hv]

/-- C2: a normal transaction that handleInventoryTransaction rejects leaves the
session as it was; in particular the main, offhand and UI inventories hold the
same item in every slot as before the call. -/
theorem handleInventoryTransaction_rejected_unchanged (codec : ItemCodec) (s : Session)
    (actions : List InventoryAction) (err : Error)
    (h : (s.handleInventoryTransaction codec ⟨actions, .Normal⟩).1 = some err) :
    (s.handleInventoryTransaction codec ⟨actions, .Normal⟩).2 = s ∧
      (s.handleInventoryTransaction codec ⟨actions, .Normal⟩).2.inv = s.inv ∧
      (s.handleInventoryTransaction codec ⟨actions, .Normal⟩).2.offHand = s.offHand ∧
      (s.handleInventoryTransaction codec ⟨actions, .Normal⟩).2.ui = s.ui := by
  have key : (s.handleInventoryTransaction codec ⟨actions, .Normal⟩).2 = s := by
    by_cases hne : actions = []
    · subst hne
      simp [Session.handleInventoryTransaction]
    · cases hv : s.verifyTransaction codec actions with
      | some e => rw [handle_normal_of_verify_some codec s actions hne e hv]
      | none =>
        rw [handle_normal_of_verify_none codec s actions hne hv] at h
        simp at h
  rw [key]
  exact ⟨rfl, rfl, rfl, rfl⟩

/-- Witness of C2: the rejected transaction {slot 3: A x1 -> B x1} leaves the
inventories of the session of the examples as they were. -/
theorem handleInventoryTransaction_rejected_unchanged_witness :
    (exampleSession.handleInventoryTransaction exampleCodec
        ⟨[⟨WindowIDInventory, 3, stackA, stackB⟩], .Normal⟩).1 =
      some (.invalidTransaction (.notPresent .notPresent)) ∧
    ((exampleSession.handleInventoryTransaction exampleCodec
        ⟨[⟨WindowIDInventory, 3, stackA, stackB⟩], .Normal⟩).2 = exampleSession ∧
      (exampleSession.handleInventoryTransaction exampleCodec
        ⟨[⟨WindowIDInventory, 3, stackA, stackB⟩], .Normal⟩).2.inv = exampleSession.inv ∧
      (exampleSession.handleInventoryTransaction exampleCodec
        ⟨[⟨WindowIDInventory, 3, stackA, stackB⟩], .Normal⟩).2.offHand =
          exampleSession.offHand ∧
      (exampleSession.handleInventoryTransaction exampleCodec
        ⟨[⟨WindowIDInventory, 3, stackA, stackB⟩], .Normal⟩).2.ui = exampleSession.ui) :=
  ⟨by decide, handleInventoryTransaction_rejected_unchanged exampleCodec exampleSession
    [⟨WindowIDInventory, 3, stackA, stackB⟩] (.invalidTransaction (.notPresent .notPresent))
    (by decide)⟩

/-- C3 at its failing input: the session of the examples holds one A and one B;
the balanced transaction that names slot 3 twice is accepted and leaves the
session with two A and no B: a B was destroyed and an A created. -/
theorem executeTransaction_duplicate_slot_not_conserved :
    exampleSession.verifyTransaction exampleCodec duplicateSlotActions = none ∧
    (exampleSession.handleInventoryTransaction exampleCodec
      ⟨duplicateSlotActions, .Normal⟩).1 = none ∧
    exampleSession.items = ({⟨1⟩, ⟨2⟩} : Multiset Item) ∧
    (exampleSession.handleInventoryTransaction exampleCodec
      ⟨duplicateSlotActions, .Normal⟩).2.items = ({⟨1⟩, ⟨1⟩} : Multiset Item) := by
  refine ⟨by decide, by decide, by decide, by decide⟩

theorem addOld_error_of_mem (codec : ItemCodec) (s : Session) (a : InventoryAction)
    (hbad : ∀ rest temp, ∃ e, verifyTransaction.addOld codec s (a :: rest) temp = .error e) :
    ∀ actions, a ∈ actions → ∀ temp,
      ∃ e, verifyTransaction.addOld codec s actions temp = .error e := by
  intro actions
  induction actions with
  | nil => intro h; simp at h
  | cons b rest ih =>
    intro hmem temp
    rcases List.mem_cons.mp hmem with rfl | hin
    · exact hbad rest temp
    · cases h1 : s.invByID b.WindowID with
      | none =>
        exact ⟨.unknownInventory b.WindowID, by simp [verifyTransaction.addOld, h1]⟩
      | some inv =>
        cases h2 : inv.Item b.InventorySlot with
        | error e2 =>
          exact ⟨.slotOutOfRange b.InventorySlot b.WindowID,
            by simp [verifyTransaction.addOld, h1, h2]⟩
        | ok actualOld =>
          by_cases hc : (!actualOld.Comparable (stackToItem codec b.OldItem) ||
              actualOld.Count != (stackToItem codec b.OldItem).Count) = true
          · exact ⟨.differentItem b.InventorySlot (stackToItem codec b.OldItem) actualOld,
              by simp only [verifyTransaction.addOld, h1, h2, hc, if_true]⟩
          · cases h3 : Inventory.AddItem temp (stackToItem codec b.OldItem) with
            | error e3 =>
              exact ⟨.inventoryFull e3,
                by simp only [verifyTransaction.addOld, h1, h2, hc, h3]; rfl⟩
            | ok t =>
              obtain ⟨e, he⟩ := ih hin t
              exact ⟨e, by simp only [verifyTransaction.addOld, h1, h2, hc, h3, he]; rfl⟩

theorem verify_error_of_addOld_error (codec : ItemCodec) (s : Session)
    (actions : List InventoryAction)
    (h : ∃ e, verifyTransaction.addOld codec s actions (Inventory.New 128) = .error e) :
    ∃ err, s.verifyTransaction codec actions = some err := by
  obtain ⟨e, he⟩ := h
  exact ⟨e, by simp [Session.verifyTransaction, he]⟩

/-- C5: a normal transaction with an action whose window ID is none of the
main-inventory, offhand and UI window IDs makes verifyTransaction return an
error, whether or not its items balance, and handleInventoryTransaction rejects
the transaction and leaves the session unchanged. -/
theorem verifyTransaction_unknown_window_rejected (codec : ItemCodec) (s : Session)
    (actions : List InventoryAction) (a : InventoryAction) (ha : a ∈ actions)
    (h1 : a.WindowID ≠ WindowIDInventory) (h2 : a.WindowID ≠ WindowIDOffHand)
    (h3 : a.WindowID ≠ WindowIDUI) :
    (∃ err, s.verifyTransaction codec actions = some err) ∧
      ∃ err, s.handleInventoryTransaction codec ⟨actions, .Normal⟩ = (some err, s) := by
  have hnone : s.invByID a.WindowID = none := by
    simp [Session.invByID, h1, h2, h3]
  have hv := verify_error_of_addOld_error codec s actions
    (addOld_error_of_mem codec s a
      (fun rest temp => ⟨.unknownInventory a.WindowID,
        by simp [verifyTransaction.addOld, hnone]⟩) actions ha _)
  refine ⟨hv, ?_⟩
  obtain ⟨err, herr⟩ := hv
  exact ⟨_, handle_normal_of_verify_some codec s actions (List.ne_nil_of_mem ha) err herr⟩

/-- Witness of C5: a balanced transaction of the session of the examples with an
action on window ID 7 is rejected. -/
theorem verifyTransaction_unknown_window_rejected_witness :
    (∃ err, exampleSession.verifyTransaction exampleCodec
      [⟨WindowIDInventory, 3, stackA, stackA⟩, ⟨7, 0, stackB, stackB⟩] = some err) ∧
    ∃ err, exampleSession.handleInventoryTransaction exampleCodec
      ⟨[⟨WindowIDInventory, 3, stackA, stackA⟩, ⟨7, 0, stackB, stackB⟩], .Normal⟩ =
        (some err, exampleSession) :=
  verifyTransaction_unknown_window_rejected exampleCodec exampleSession
    [⟨WindowIDInventory, 3, stackA, stackA⟩, ⟨7, 0, stackB, stackB⟩] ⟨7, 0, stackB, stackB⟩
    (by decide) (by decide) (by decide) (by decide)

/-- C6: a normal transaction with an action whose claimed-old item differs, in
identity or in count, from the item that the resolved inventory holds at the
slot of the action makes verifyTransaction return an error, whether or not its
items balance, and handleInventoryTransaction rejects the transaction and
leaves the session unchanged. -/
theorem verifyTransaction_stale_old_rejected (codec : ItemCodec) (s : Session)
    (actions : List InventoryAction) (a : InventoryAction) (ha : a ∈ actions)
    (inv : Inventory) (actual : Stack) (hinv : s.invByID a.WindowID = some inv)
    (hitem : inv.Item a.InventorySlot = .ok actual)
    (hdiff : actual.item ≠ (stackToItem codec a.OldItem).item ∨
      actual.count ≠ (stackToItem codec a.OldItem).count) :
    (∃ err, s.verifyTransaction codec actions = some err) ∧
      ∃ err, s.handleInventoryTransaction codec ⟨actions, .Normal⟩ = (some err, s) := by
  have hc : (!actual.Comparable (stackToItem codec a.OldItem) ||
      actual.Count != (stackToItem codec a.OldItem).Count) = true := by
    rcases hdiff with h | h
    · simp [Stack.Comparable, h]
    · simp [Stack.Count, h]
  have hv := verify_error_of_addOld_error codec s actions
    (addOld_error_of_mem codec s a
      (fun rest temp => ⟨.differentItem a.InventorySlot (stackToItem codec a.OldItem) actual,
        by simp only [verifyTransaction.addOld, hinv, hitem, hc, if_true]⟩)
      actions ha _)
  refine ⟨hv, ?_⟩
  obtain ⟨err, herr⟩ := hv
  exact ⟨_, handle_normal_of_verify_some codec s actions (List.ne_nil_of_mem ha) err herr⟩

/-- Witness of C6: slot 3 of the session of the examples holds A x1, and the
balanced transaction {slot 3: B x1 -> B x1} is rejected. -/
theorem verifyTransaction_stale_old_rejected_witness :
    (∃ err, exampleSession.verifyTransaction exampleCodec
      [⟨WindowIDInventory, 3, stackB, stackB⟩] = some err) ∧
    ∃ err, exampleSession.handleInventoryTransaction exampleCodec
      ⟨[⟨WindowIDInventory, 3, stackB, stackB⟩], .Normal⟩ = (some err, exampleSession) :=
  verifyTransaction_stale_old_rejected exampleCodec exampleSession
    [⟨WindowIDInventory, 3, stackB, stackB⟩] ⟨WindowIDInventory, 3, stackB, stackB⟩
    (by decide) exampleSession.inv ⟨⟨1⟩, 1⟩ rfl rfl (by decide)

theorem invByID_eq_some_cases (s : Session) (id : Int) (inv : Inventory)
    (h : s.invByID id = some inv) :
    (id = WindowIDInventory ∧ inv = s.inv) ∨ (id = WindowIDOffHand ∧ inv = s.offHand) ∨
      (id = WindowIDUI ∧ inv = s.ui) := by
  unfold Session.invByID at h
  split_ifs at h with h1 h2 h3
  · exact Or.inl ⟨h1, (Option.some.inj h).symm⟩
  · exact Or.inr (Or.inl ⟨h2, (Option.some.inj h).symm⟩)
  · exact Or.inr (Or.inr ⟨h3, (Option.some.inj h).symm⟩)

theorem invByID_stored (codec : ItemCodec) (s : Session) (id : Int) (old inv : Inventory)
    (slot : Nat) (item : Stack) (h : s.invByID id = some old) (w : Int) :
    (s.stored codec id inv slot item).invByID w =
      if w = id then some inv else s.invByID w := by
  rcases invByID_eq_some_cases s id old h with ⟨rfl, _⟩ | ⟨rfl, _⟩ | ⟨rfl, _⟩
  · by_cases hw : w = WindowIDInventory
    · subst hw
      simp only [Session.stored, Session.invSlotChanged, Session.writePacket, if_true]
      split_ifs <;> simp [Session.invByID]
    · simp only [Session.stored, Session.invSlotChanged, Session.writePacket, if_true, if_neg hw]
      split_ifs <;> simp [Session.invByID, hw]
  · have h0 : WindowIDOffHand ≠ WindowIDInventory := by decide
    by_cases hw : w = WindowIDOffHand
    · subst hw
      simp only [Session.stored, Session.offHandSlotChanged, Session.writePacket, if_true,
        if_neg h0]
      split_ifs <;> simp [Session.invByID, h0]
    · simp only [Session.stored, Session.offHandSlotChanged, Session.writePacket, if_true,
        if_neg h0, if_neg hw]
      split_ifs <;> simp [Session.invByID, hw]
  · have h0 : WindowIDUI ≠ WindowIDInventory := by decide
    have h1 : WindowIDUI ≠ WindowIDOffHand := by decide
    by_cases hw : w = WindowIDUI
    · subst hw
      simp [Session.stored, Session.invByID, h0, h1]
    · simp [Session.stored, Session.invByID, h0, h1, hw]

theorem executeTransaction_cons (codec : ItemCodec) (s : Session) (a : InventoryAction)
    (rest : List InventoryAction) :
    Session.executeTransaction codec s (a :: rest) =
      Session.executeTransaction codec (executeTransaction.next codec s a) rest := by
  unfold executeTransaction.next
  cases h : executeTransaction.step codec s a <;> simp [Session.executeTransaction, h]

theorem Item_set (inv : Inventory) (slot sl : Nat) (it : Stack) (h : slot < inv.length) :
    Inventory.Item (inv.set slot it) sl = if sl = slot then .ok it else Inventory.Item inv sl := by
  unfold Inventory.Item
  by_cases hs : sl = slot
  · subst hs
    simp [List.get?_eq_getElem?, List.getElem?_set, h]
  · have : slot ≠ sl := fun e => hs e.symm
    simp [List.get?_eq_getElem?, List.getElem?_set, this, hs]

theorem itemAt_next (codec : ItemCodec) (s : Session) (a : InventoryAction) (w : Int)
    (sl : Nat) :
    (executeTransaction.next codec s a).itemAt w sl =
      if w = a.WindowID ∧ sl = a.InventorySlot ∧ s.resolves a then
        some (stackToItem codec a.NewItem)
      else s.itemAt w sl := by
  unfold executeTransaction.next executeTransaction.step
  cases h : s.invByID a.WindowID with
  | none =>
    have hr : ¬ s.resolves a := by simp [Session.resolves, h]
    simp [hr]
  | some inv =>
    by_cases hlt : a.InventorySlot < inv.length
    · have hr : s.resolves a := by simp [Session.resolves, h, hlt]
      simp only [Inventory.SetItem, hlt, if_true, hr, and_true]
      unfold Session.itemAt
      rw [invByID_stored codec s a.WindowID inv _ _ _ h w]
      by_cases hw : w = a.WindowID
      · subst hw
        simp only [if_true, true_and, Item_set _ _ _ _ hlt, h]
        by_cases hs : sl = a.InventorySlot
        · simp [hs]
        · simp [hs]
      · simp [hw]
    · have hr : ¬ s.resolves a := by simp [Session.resolves, h, hlt]
      simp [Inventory.SetItem, hlt, hr]

theorem resolves_next (codec : ItemCodec) (s : Session) (a b : InventoryAction) :
    (executeTransaction.next codec s a).resolves b ↔ s.resolves b := by
  have key : ∀ (t : Session) (x : InventoryAction),
      t.resolves x ↔ (t.itemAt x.WindowID x.InventorySlot).isSome = true := by
    intro t x
    unfold Session.resolves Session.itemAt Inventory.Item
    cases t.invByID x.WindowID with
    | none => simp
    | some inv =>
      simp only
      cases hg : inv.get? x.InventorySlot with
      | none =>
        simp only [Option.isSome_none, Bool.false_eq_true, iff_false, not_lt]
        exact List.get?_eq_none.mp hg
      | some v =>
        simp only [Option.isSome_some, iff_true]
        exact (List.get?_eq_some.mp hg).1
  rw [key, key, itemAt_next]
  split_ifs with hc
  · obtain ⟨h1, h2, h3⟩ := hc
    rw [h1, h2, ← key]
    simp [h3]
  · rfl

theorem resolves_iff_itemAt (t : Session) (x : InventoryAction) :
    t.resolves x ↔ (t.itemAt x.WindowID x.InventorySlot).isSome = true := by
  unfold Session.resolves Session.itemAt Inventory.Item
  cases t.invByID x.WindowID with
  | none => simp
  | some inv =>
    simp only
    cases hg : inv.get? x.InventorySlot with
    | none =>
      simp only [Option.isSome_none, Bool.false_eq_true, iff_false, not_lt]
      exact List.get?_eq_none.mp hg
    | some v =>
      simp only [Option.isSome_some, iff_true]
      exact (List.get?_eq_some.mp hg).1

theorem exec_itemAt_unnamed (codec : ItemCodec) (w : Int) (sl : Nat)
    (actions : List InventoryAction) :
    ∀ s : Session, (w, sl) ∉ namedSlots actions →
      (Session.executeTransaction codec s actions).itemAt w sl = s.itemAt w sl := by
  induction actions with
  | nil => intro s _; rfl
  | cons a rest ih =>
    intro s hn
    simp only [namedSlots, List.map_cons, List.mem_cons, not_or] at hn
    rw [executeTransaction_cons, ih _ hn.2, itemAt_next]
    have : ¬ (w = a.WindowID ∧ sl = a.InventorySlot ∧ s.resolves a) := by
      rintro ⟨h1, h2, _⟩
      exact hn.1 (by rw [h1, h2])
    rw [if_neg this]

theorem exec_itemAt_named (codec : ItemCodec) (actions : List InventoryAction) :
    ∀ s : Session, (namedSlots actions).Nodup → (∀ a ∈ actions, s.resolves a) →
      ∀ a ∈ actions, (Session.executeTransaction codec s actions).itemAt a.WindowID
        a.InventorySlot = some (stackToItem codec a.NewItem) := by
  induction actions with
  | nil => intro s _ _ a ha; simp at ha
  | cons b rest ih =>
    intro s hnd hres a ha
    simp only [namedSlots, List.map_cons, List.nodup_cons] at hnd
    rw [executeTransaction_cons]
    rcases List.mem_cons.mp ha with rfl | hin
    · rw [exec_itemAt_unnamed codec _ _ rest _ hnd.1, itemAt_next]
      simp [hres a (List.mem_cons_self _ _)]
    · exact ih _ hnd.2
        (fun x hx => (resolves_next codec s b x).mpr (hres x (List.mem_cons_of_mem _ hx))) a hin

theorem addOld_resolves (codec : ItemCodec) (s : Session) (actions : List InventoryAction)
    (temp r : Inventory) (h : verifyTransaction.addOld codec s actions temp = .ok r) :
    ∀ a ∈ actions, s.resolves a := by
  intro a ha
  by_contra hr
  have hbad : ∀ rest temp, ∃ e,
      verifyTransaction.addOld codec s (a :: rest) temp = .error e := by
    intro rest temp
    cases h1 : s.invByID a.WindowID with
    | none =>
      exact ⟨.unknownInventory a.WindowID, by simp [verifyTransaction.addOld, h1]⟩
    | some inv =>
      have hlen : ¬ a.InventorySlot < inv.length := by
        simpa [Session.resolves, h1] using hr
      have hget : inv.Item a.InventorySlot = .error .slotOutOfRange := by
        unfold Inventory.Item
        rw [List.get?_eq_none.mpr (Nat.le_of_not_lt hlen)]
      exact ⟨.slotOutOfRange a.InventorySlot a.WindowID,
        by simp only [verifyTransaction.addOld, h1, hget]⟩
  obtain ⟨e, he⟩ := addOld_error_of_mem codec s a hbad actions ha temp
  rw [he] at h
  cases h

theorem verify_none_resolves (codec : ItemCodec) (s : Session)
    (actions : List InventoryAction) (h : s.verifyTransaction codec actions = none) :
    ∀ a ∈ actions, s.resolves a := by
  unfold Session.verifyTransaction at h
  cases h1 : verifyTransaction.addOld codec s actions (Inventory.New 128) with
  | error e => simp [h1] at h
  | ok r => exact addOld_resolves codec s actions _ r h1

theorem handle_accepted_applies (codec : ItemCodec) (s : Session)
    (actions : List InventoryAction)
    (hacc : (s.handleInventoryTransaction codec ⟨actions, .Normal⟩).1 = none)
    (hd : (namedSlots actions).Nodup) :
    (∀ a ∈ actions, (s.handleInventoryTransaction codec ⟨actions, .Normal⟩).2.itemAt
        a.WindowID a.InventorySlot = some (stackToItem codec a.NewItem)) ∧
      ∀ w sl, (w, sl) ∉ namedSlots actions →
        (s.handleInventoryTransaction codec ⟨actions, .Normal⟩).2.itemAt w sl =
          s.itemAt w sl := by
  by_cases hne : actions = []
  · subst hne
    simp [Session.handleInventoryTransaction]
  · cases hv : s.verifyTransaction codec actions with
    | some e =>
      rw [handle_normal_of_verify_some codec s actions hne e hv] at hacc
      simp at hacc
    | none =>
      rw [handle_normal_of_verify_none codec s actions hne hv]
      have hflag : ∀ (t : Session) (n : Nat) (w : Int) (sl : Nat),
          Session.itemAt { t with inTransaction := n } w sl = t.itemAt w sl := by
        intro t n w sl
        rfl
      have hres : ∀ a ∈ actions, Session.resolves { s with inTransaction := 1 } a := by
        intro a ha
        rw [resolves_iff_itemAt, hflag, ← resolves_iff_itemAt]
        exact verify_none_resolves codec s actions hv a ha
      constructor
      · intro a ha
        simp only
        rw [hflag, exec_itemAt_named codec actions _ hd hres a ha]
      · intro w sl hn
        simp only
        rw [hflag, exec_itemAt_unnamed codec w sl actions _ hn, hflag]

theorem verify_swap_none (codec : ItemCodec) (s : Session) (a b : ItemStack)
    (ha : a.Count = 1) (hb : b.Count = 1)
    (h3 : s.itemAt WindowIDInventory 3 = some (stackToItem codec a))
    (h5 : s.itemAt WindowIDInventory 5 = some (stackToItem codec b)) :
    s.verifyTransaction codec
      [⟨WindowIDInventory, 3, a, b⟩, ⟨WindowIDInventory, 5, b, a⟩] = none := by
  rw [verify_iff_of_holdsOld codec s _ ?_ ?_]
  · simp [oldItems, newItems, add_comm]
  · intro x hx
    simp only [List.mem_cons, List.mem_singleton, List.not_mem_nil, or_false] at hx
    rcases hx with rfl | rfl
    · exact h3
    · exact h5
  · refine le_trans (Multiset.toFinset_card_le _) ?_
    simp [oldItems, stackToItem, NewStack, ha, hb]

/-- C4: when handleInventoryTransaction accepts a normal transaction whose
actions name pairwise distinct (window, slot) pairs, afterwards each named slot
holds the claimed-new item of its action and every slot that no action names
holds what it held before. In particular, with slot 3 holding A x1 and slot 5
holding B x1, the transaction {slot 3: A x1 -> B x1, slot 5: B x1 -> A x1} is
accepted and leaves slot 3 holding B x1 and slot 5 holding A x1. -/
theorem handleInventoryTransaction_accepted_sets_slots (codec : ItemCodec) (s : Session) :
    (∀ actions : List InventoryAction,
      (s.handleInventoryTransaction codec ⟨actions, .Normal⟩).1 = none →
      (namedSlots actions).Nodup →
      (∀ a ∈ actions, (s.handleInventoryTransaction codec ⟨actions, .Normal⟩).2.itemAt
        a.WindowID a.InventorySlot = some (stackToItem codec a.NewItem)) ∧
      ∀ w sl, (w, sl) ∉ namedSlots actions →
        (s.handleInventoryTransaction codec ⟨actions, .Normal⟩).2.itemAt w sl =
          s.itemAt w sl) ∧
    (∀ a b : ItemStack, a.Count = 1 → b.Count = 1 →
      s.itemAt WindowIDInventory 3 = some (stackToItem codec a) →
      s.itemAt WindowIDInventory 5 = some (stackToItem codec b) →
      (s.handleInventoryTransaction codec
        ⟨[⟨WindowIDInventory, 3, a, b⟩, ⟨WindowIDInventory, 5, b, a⟩], .Normal⟩).1 = none ∧
      (s.handleInventoryTransaction codec
        ⟨[⟨WindowIDInventory, 3, a, b⟩, ⟨WindowIDInventory, 5, b, a⟩], .Normal⟩).2.itemAt
          WindowIDInventory 3 = some (stackToItem codec b) ∧
      (s.handleInventoryTransaction codec
        ⟨[⟨WindowIDInventory, 3, a, b⟩, ⟨WindowIDInventory, 5, b, a⟩], .Normal⟩).2.itemAt
          WindowIDInventory 5 = some (stackToItem codec a)) := by
  refine ⟨fun actions hacc hd => handle_accepted_applies codec s actions hacc hd, ?_⟩
  intro a b ha hb h3 h5
  have hv := verify_swap_none codec s a b ha hb h3 h5
  have hacc : (s.handleInventoryTransaction codec
      ⟨[⟨WindowIDInventory, 3, a, b⟩, ⟨WindowIDInventory, 5, b, a⟩], .Normal⟩).1 = none := by
    rw [handle_normal_of_verify_none codec s _ (by simp) hv]
  have hd : (namedSlots [(⟨WindowIDInventory, 3, a, b⟩ : InventoryAction),
      ⟨WindowIDInventory, 5, b, a⟩]).Nodup := by
    simp [namedSlots]
  obtain ⟨hnamed, _⟩ := handle_accepted_applies codec s _ hacc hd
  exact ⟨hacc, hnamed ⟨WindowIDInventory, 3, a, b⟩ (by simp),
    hnamed ⟨WindowIDInventory, 5, b, a⟩ (by simp)⟩

/-- Witness of C4: the swap of the examples is accepted and leaves slot 3
holding B x1, slot 5 holding A x1 and slot 4 empty as before. -/
theorem handleInventoryTransaction_accepted_sets_slots_witness :
    ((exampleSession.handleInventoryTransaction exampleCodec
        ⟨[⟨WindowIDInventory, 3, stackA, stackB⟩, ⟨WindowIDInventory, 5, stackB, stackA⟩],
          .Normal⟩).2.itemAt WindowIDInventory 4 = exampleSession.itemAt WindowIDInventory 4) ∧
    ((exampleSession.handleInventoryTransaction exampleCodec
        ⟨[⟨WindowIDInventory, 3, stackA, stackB⟩, ⟨WindowIDInventory, 5, stackB, stackA⟩],
          .Normal⟩).1 = none ∧
      (exampleSession.handleInventoryTransaction exampleCodec
        ⟨[⟨WindowIDInventory, 3, stackA, stackB⟩, ⟨WindowIDInventory, 5, stackB, stackA⟩],
          .Normal⟩).2.itemAt WindowIDInventory 3 = some (stackToItem exampleCodec stackB) ∧
      (exampleSession.handleInventoryTransaction exampleCodec
        ⟨[⟨WindowIDInventory, 3, stackA, stackB⟩, ⟨WindowIDInventory, 5, stackB, stackA⟩],
          .Normal⟩).2.itemAt WindowIDInventory 5 = some (stackToItem exampleCodec stackA)) :=
  ⟨((handleInventoryTransaction_accepted_sets_slots exampleCodec exampleSession).1
      [⟨WindowIDInventory, 3, stackA, stackB⟩, ⟨WindowIDInventory, 5, stackB, stackA⟩]
      (by decide) (by decide)).2 WindowIDInventory 4 (by decide),
    (handleInventoryTransaction_accepted_sets_slots exampleCodec exampleSession).2
      stackA stackB rfl rfl (by decide) (by decide)⟩

/-- C7: for a MobEquipment packet with the handle of the own entity (1),
handleMobEquipment returns no error if and only if the slot is at most 8 and
the window is the main inventory; it then sets the held slot to the slot of the
packet, and otherwise returns an error and leaves the session, with its held
slot, as it was. A held slot in [0,8] before the call is in [0,8] after it. -/
theorem handleMobEquipment_held_slot (s : Session) (pk : MobEquipment)
    (h : pk.EntityRuntimeID = selfEntityRuntimeID) :
    ((s.handleMobEquipment pk).1 = none ↔
      (pk.InventorySlot ≤ 8 ∧ (pk.WindowID : Int) = WindowIDInventory)) ∧
    ((pk.InventorySlot ≤ 8 ∧ (pk.WindowID : Int) = WindowIDInventory) →
      (s.handleMobEquipment pk).2.heldSlot = pk.InventorySlot) ∧
    (¬ (pk.InventorySlot ≤ 8 ∧ (pk.WindowID : Int) = WindowIDInventory) →
      (∃ err, (s.handleMobEquipment pk).1 = some err) ∧
        (s.handleMobEquipment pk).2 = s ∧
        (s.handleMobEquipment pk).2.heldSlot = s.heldSlot) ∧
    (s.heldSlot ≤ 8 → (s.handleMobEquipment pk).2.heldSlot ≤ 8) := by
  have hid : ¬ pk.EntityRuntimeID ≠ selfEntityRuntimeID := fun hne => hne h
  by_cases hslot : pk.InventorySlot > 8
  · have hnot : ¬ (pk.InventorySlot ≤ 8 ∧ (pk.WindowID : Int) = WindowIDInventory) := by
      rintro ⟨h1, _⟩
      omega
    have hres : s.handleMobEquipment pk = (some (.slotExceedsHotbar pk.InventorySlot), s) := by
      simp only [Session.handleMobEquipment, if_neg hid, if_pos hslot]
    rw [hres]
    refine ⟨by simp [hnot], fun hc => absurd hc hnot, fun _ => ⟨⟨_, rfl⟩, rfl, rfl⟩,
      fun h8 => h8⟩
  · by_cases hwin : (pk.WindowID : Int) ≠ WindowIDInventory
    · have hnot : ¬ (pk.InventorySlot ≤ 8 ∧ (pk.WindowID : Int) = WindowIDInventory) := by
        rintro ⟨_, h2⟩
        exact hwin h2
      have hres : s.handleMobEquipment pk = (some (.notMainInventory pk.WindowID), s) := by
        simp only [Session.handleMobEquipment, if_neg hid, if_neg hslot, if_pos hwin]
      rw [hres]
      refine ⟨by simp [hnot], fun hc => absurd hc hnot, fun _ => ⟨⟨_, rfl⟩, rfl, rfl⟩,
        fun h8 => h8⟩
    · have hyes : pk.InventorySlot ≤ 8 ∧ (pk.WindowID : Int) = WindowIDInventory :=
        ⟨Nat.le_of_not_lt hslot, not_not.mp hwin⟩
      have hres : s.handleMobEquipment pk =
          (none, { s with heldSlot := pk.InventorySlot,
                          viewed := s.viewed ++ s.viewers s.c.position }) := by
        simp only [Session.handleMobEquipment, if_neg hid, if_neg hslot, if_neg hwin]
      rw [hres]
      refine ⟨by simp [hyes], fun _ => rfl, fun hc => absurd hyes hc, fun _ => hyes.1⟩

/-- Witness of C7: slot 4 of the main inventory is accepted and becomes the held
slot; slot 9 is rejected and the held slot stays 0. -/
theorem handleMobEquipment_held_slot_witness :
    ((emptySession.handleMobEquipment ⟨1, 4, 0⟩).1 = none ∧
      (emptySession.handleMobEquipment ⟨1, 4, 0⟩).2.heldSlot = 4) ∧
    ((∃ err, (emptySession.handleMobEquipment ⟨1, 9, 0⟩).1 = some err) ∧
      (emptySession.handleMobEquipment ⟨1, 9, 0⟩).2 = emptySession ∧
      (emptySession.handleMobEquipment ⟨1, 9, 0⟩).2.heldSlot = emptySession.heldSlot) :=
  ⟨⟨(handleMobEquipment_held_slot emptySession ⟨1, 4, 0⟩ rfl).1.mpr (by decide),
      (handleMobEquipment_held_slot emptySession ⟨1, 4, 0⟩ rfl).2.1 (by decide)⟩,
    (handleMobEquipment_held_slot emptySession ⟨1, 9, 0⟩ rfl).2.2.1 (by decide)⟩

/-- C8: a MovePlayer, MobEquipment, PlayerAction or Respawn packet whose entity
runtime handle is not 1 makes its handler return an error and leave the session
as it was: position, rotation, sprint and sneak state, held slot and the queue
of outbound packets are unchanged. -/
theorem handlers_reject_foreign_handle (s : Session) :
    (∀ pk : MovePlayer, pk.EntityRuntimeID ≠ selfEntityRuntimeID →
      ∃ err, s.handleMovePlayer pk = (some err, s)) ∧
    (∀ pk : MobEquipment, pk.EntityRuntimeID ≠ selfEntityRuntimeID →
      ∃ err, s.handleMobEquipment pk = (some err, s)) ∧
    (∀ pk : PlayerAction, pk.EntityRuntimeID ≠ selfEntityRuntimeID →
      ∃ err, s.handlePlayerAction pk = (some err, s)) ∧
    (∀ pk : Respawn, pk.EntityRuntimeID ≠ selfEntityRuntimeID →
      ∃ err, s.handleRespawn pk = (some err, s)) := by
  refine ⟨fun pk h => ⟨.incorrectRuntimeID pk.EntityRuntimeID, ?_⟩,
    fun pk h => ⟨.incorrectRuntimeID pk.EntityRuntimeID, ?_⟩,
    fun pk h => ⟨.incorrectRuntimeID pk.EntityRuntimeID, ?_⟩,
    fun pk h => ⟨.incorrectRuntimeID pk.EntityRuntimeID, ?_⟩⟩
  · simp only [Session.handleMovePlayer, if_pos h]
  · simp only [Session.handleMobEquipment, if_pos h]
  · simp only [Session.handlePlayerAction, if_pos h]
  · simp only [Session.handleRespawn, if_pos h]

/-- Witness of C8: each of the four packets with handle 2 is rejected and the
session is unchanged. -/
theorem handlers_reject_foreign_handle_witness :
    (∃ err, emptySession.handleMovePlayer ⟨2, ⟨1, 2, 3⟩, 0, 0⟩ = (some err, emptySession)) ∧
    (∃ err, emptySession.handleMobEquipment ⟨2, 4, 0⟩ = (some err, emptySession)) ∧
    (∃ err, emptySession.handlePlayerAction ⟨2, PlayerActionStartSprint⟩ =
      (some err, emptySession)) ∧
    (∃ err, emptySession.handleRespawn ⟨2, RespawnStateClientReadyToSpawn⟩ =
      (some err, emptySession)) :=
  ⟨(handlers_reject_foreign_handle emptySession).1 ⟨2, ⟨1, 2, 3⟩, 0, 0⟩ (by decide),
    (handlers_reject_foreign_handle emptySession).2.1 ⟨2, 4, 0⟩ (by decide),
    (handlers_reject_foreign_handle emptySession).2.2.1 ⟨2, PlayerActionStartSprint⟩
      (by decide),
    (handlers_reject_foreign_handle emptySession).2.2.2 ⟨2, RespawnStateClientReadyToSpawn⟩
      (by decide)⟩

theorem keys_erase_length_le (m : AList (fun _ : Nat => Form)) (k : Nat) :
    (m.erase k).keys.length ≤ m.keys.length := by
  rw [AList.keys_erase]
  exact List.length_erase_le _ _

theorem keys_erase_length_of_mem (m : AList (fun _ : Nat => Form)) (k : Nat)
    (h : k ∈ m.keys) : (m.erase k).keys.length = m.keys.length - 1 := by
  rw [AList.keys_erase, List.length_erase_of_mem h]

theorem keys_insert_length_le (m : AList (fun _ : Nat => Form)) (k : Nat) (f : Form) :
    (m.insert k f).keys.length ≤ m.keys.length + 1 := by
  rw [AList.keys_insert, List.length_cons]
  exact Nat.succ_le_succ (List.length_erase_le _ _)

theorem keys_insert_length_of_not_mem (m : AList (fun _ : Nat => Form)) (k : Nat) (f : Form)
    (h : k ∉ m) : (m.insert k f).keys.length = m.keys.length + 1 := by
  rw [AList.keys_insert, List.length_cons, List.erase_of_not_mem (fun hk => h (AList.mem_keys.mpr hk))]

theorem SendForm_forms (s : Session) (f : Form) (pick : Nat) :
    (s.SendForm f pick).forms =
      if s.forms.keys.length > 10 then
        match s.forms.keys.get? (pick % s.forms.keys.length) with
        | some k => (s.forms.erase k).insert s.formID f
        | none => s.forms.insert s.formID f
      else s.forms.insert s.formID f := by
  unfold Session.SendForm Session.formCount
  by_cases h : s.forms.keys.length > 10
  · simp only [if_pos h, Session.writePacket]
    cases s.forms.keys.get? (pick % s.forms.keys.length) <;> rfl
  · simp only [if_neg h, Session.writePacket]

theorem SendForm_formCount_le (s : Session) (f : Form) (pick : Nat)
    (h : s.formCount ≤ 11) : (s.SendForm f pick).formCount ≤ 11 := by
  unfold Session.formCount at h ⊢
  rw [SendForm_forms]
  by_cases hc : s.forms.keys.length > 10
  · rw [if_pos hc]
    have hlt : pick % s.forms.keys.length < s.forms.keys.length :=
      Nat.mod_lt _ (by omega)
    rw [List.get?_eq_get hlt]
    simp only
    have hmem : s.forms.keys.get ⟨pick % s.forms.keys.length, hlt⟩ ∈ s.forms.keys :=
      List.get_mem _ _ _
    have h1 := keys_insert_length_le (s.forms.erase
      (s.forms.keys.get ⟨pick % s.forms.keys.length, hlt⟩)) s.formID f
    have h2 := keys_erase_length_of_mem s.forms _ hmem
    omega
  · rw [if_neg hc]
    have h1 := keys_insert_length_le s.forms s.formID f
    omega

theorem handleModalFormResponse_forms (s : Session) (pk : ModalFormResponse) :
    (s.handleModalFormResponse pk).2.forms = s.forms.erase pk.FormID := by
  unfold Session.handleModalFormResponse
  cases s.forms.lookup pk.FormID with
  | none => rfl
  | some f =>
    simp only
    split_ifs <;> rfl

theorem formCalls_formCount_le (calls : List FormCall) :
    ∀ s : Session, s.formCount ≤ 11 → (s.formCalls calls).formCount ≤ 11 := by
  induction calls with
  | nil => intro s h; exact h
  | cons call rest ih =>
    intro s h
    apply ih
    cases call with
    | send f pick => exact SendForm_formCount_le s f pick h
    | respond pk =>
      unfold Session.formCall Session.formCount
      rw [handleModalFormResponse_forms]
      exact le_trans (keys_erase_length_le _ _) h

/-- C9 (amended): the outstanding-forms map of a session never holds more than
11 forms: after every sequence of SendForm and handleModalFormResponse calls
that starts from an empty map at most 11 forms are outstanding. SendForm drops
a form only when more than 10 are outstanding: called while exactly 10 forms
are outstanding, none of them under the next form ID, it leaves exactly 11
outstanding, and called while 11 are outstanding it leaves at most 11. -/
theorem forms_at_most_eleven :
    (∀ (s : Session) (calls : List FormCall), s.formCount = 0 →
      (s.formCalls calls).formCount ≤ 11) ∧
    (∀ (s : Session) (f : Form) (pick : Nat), s.formCount = 10 → s.formID ∉ s.forms →
      (s.SendForm f pick).formCount = 11) ∧
    (∀ (s : Session) (f : Form) (pick : Nat), s.formCount = 11 →
      (s.SendForm f pick).formCount ≤ 11) := by
  refine ⟨fun s calls h => formCalls_formCount_le calls s (by omega), ?_,
    fun s f pick h => SendForm_formCount_le s f pick (by omega)⟩
  intro s f pick h hfresh
  unfold Session.formCount at h ⊢
  have hc : ¬ s.forms.keys.length > 10 := by omega
  rw [SendForm_forms, if_neg hc, keys_insert_length_of_not_mem _ _ _ hfresh, h]

/-- Witness of C9 (amended): twelve sends from the empty session leave at most
11 forms outstanding, and a send with 10 forms outstanding leaves 11. -/
theorem forms_at_most_eleven_witness :
    (emptySession.formCalls (List.replicate 12 (.send exampleForm 0))).formCount ≤ 11 ∧
    ((emptySession.formCalls (List.replicate 10 (.send exampleForm 0))).SendForm
      exampleForm 0).formCount = 11 ∧
    ((emptySession.formCalls (List.replicate 11 (.send exampleForm 0))).SendForm
      exampleForm 0).formCount ≤ 11 :=
  ⟨forms_at_most_eleven.1 emptySession (List.replicate 12 (.send exampleForm 0)) (by decide),
    forms_at_most_eleven.2.1
      (emptySession.formCalls (List.replicate 10 (.send exampleForm 0))) exampleForm 0
      (by decide) (by decide),
    forms_at_most_eleven.2.2
      (emptySession.formCalls (List.replicate 11 (.send exampleForm 0))) exampleForm 0
      (by decide)⟩

/-- Counterexample to C9 as stated: from the empty session, ten sends leave 10
forms outstanding, the next SendForm leaves 11 outstanding and not 10, and so
eleven sends from an empty map leave more than 10 forms outstanding. -/
theorem forms_exceed_ten :
    emptySession.formCount = 0 ∧
    (emptySession.formCalls (List.replicate 10 (.send exampleForm 0))).formCount = 10 ∧
    ((emptySession.formCalls (List.replicate 10 (.send exampleForm 0))).SendForm
      exampleForm 0).formCount = 11 ∧
    (emptySession.formCalls (List.replicate 11 (.send exampleForm 0))).formCount = 11 := by
  refine ⟨by decide, by decide, by decide, by decide⟩

theorem handleModalFormResponse_unknown (s : Session) (pk : ModalFormResponse)
    (h : pk.FormID ∉ s.forms) :
    (s.handleModalFormResponse pk).1 = some (.formNotOpen pk.FormID) ∧
      (s.handleModalFormResponse pk).2.submitted = s.submitted := by
  have hl : s.forms.lookup pk.FormID = none := AList.lookup_eq_none.mpr h
  unfold Session.handleModalFormResponse
  rw [hl]
  exact ⟨rfl, rfl⟩

/-- C10: handleModalFormResponse delivers at most once per form. For a form ID
that is not outstanding the call returns an error and does not call SubmitJSON;
after any call the form ID of the packet is not outstanding, so that a second
response for the same ID returns an error and does not call SubmitJSON. -/
theorem handleModalFormResponse_at_most_once (s : Session) (pk : ModalFormResponse) :
    (pk.FormID ∉ s.forms →
      (s.handleModalFormResponse pk).1 = some (.formNotOpen pk.FormID) ∧
        (s.handleModalFormResponse pk).2.submitted = s.submitted) ∧
    pk.FormID ∉ (s.handleModalFormResponse pk).2.forms ∧
    (∀ pk2 : ModalFormResponse, pk2.FormID = pk.FormID →
      ((s.handleModalFormResponse pk).2.handleModalFormResponse pk2).1 =
          some (.formNotOpen pk.FormID) ∧
        ((s.handleModalFormResponse pk).2.handleModalFormResponse pk2).2.submitted =
          (s.handleModalFormResponse pk).2.submitted) := by
  have hgone : pk.FormID ∉ (s.handleModalFormResponse pk).2.forms := by
    rw [handleModalFormResponse_forms, AList.mem_erase]
    exact fun hc => hc.1 rfl
  refine ⟨handleModalFormResponse_unknown s pk, hgone, ?_⟩
  intro pk2 h2
  have := handleModalFormResponse_unknown (s.handleModalFormResponse pk).2 pk2
    (by rw [h2]; exact hgone)
  rw [h2] at this
  exact this

/-- Witness of C10: with one form outstanding under ID 0, a response for ID 5 is
rejected without a call of SubmitJSON, and after a first response for ID 0 a
second one is rejected. -/
theorem handleModalFormResponse_at_most_once_witness :
    (((emptySession.SendForm exampleForm 0).handleModalFormResponse ⟨5, [1]⟩).1 =
        some (.formNotOpen 5) ∧
      ((emptySession.SendForm exampleForm 0).handleModalFormResponse ⟨5, [1]⟩).2.submitted =
        (emptySession.SendForm exampleForm 0).submitted) ∧
    ((((emptySession.SendForm exampleForm 0).handleModalFormResponse
        ⟨0, [1]⟩).2.handleModalFormResponse ⟨0, [2]⟩).1 = some (.formNotOpen 0) ∧
      (((emptySession.SendForm exampleForm 0).handleModalFormResponse
        ⟨0, [1]⟩).2.handleModalFormResponse ⟨0, [2]⟩).2.submitted =
          ((emptySession.SendForm exampleForm 0).handleModalFormResponse
            ⟨0, [1]⟩).2.submitted) :=
  ⟨(handleModalFormResponse_at_most_once (emptySession.SendForm exampleForm 0)
      ⟨5, [1]⟩).1 (by decide),
    (handleModalFormResponse_at_most_once (emptySession.SendForm exampleForm 0)
      ⟨0, [1]⟩).2.2 ⟨0, [2]⟩ rfl⟩

theorem itemsOf_set (l : List Stack) (i : Nat) (x old : Stack)
    (h : l.get? i = some old) :
    itemsOf (l.set i x) + Multiset.replicate old.count old.item =
      itemsOf l + Multiset.replicate x.count x.item := by
  induction l generalizing i with
  | nil => simp at h
  | cons s rest ih =>
    cases i with
    | zero =>
      simp only [List.get?_cons_zero, Option.some.injEq] at h
      subst h
      simp only [List.set_cons_zero, itemsOf_cons]
      abel
    | succ n =>
      simp only [List.get?_cons_succ] at h
      simp only [List.set_cons_succ, itemsOf_cons]
      rw [add_assoc, ih n h, add_assoc]

theorem AddItem_items (inv r : Inventory) (it : Stack) (h : inv.AddItem it = .ok r) :
    itemsOf r = itemsOf inv + Multiset.replicate it.count it.item := by
  unfold Inventory.AddItem at h
  by_cases h0 : it.count = 0
  · rw [if_pos h0] at h
    cases h
    simp [h0]
  · rw [if_neg h0] at h
    cases hm : Inventory.mergeStack it inv with
    | some r1 =>
      rw [hm] at h
      have hr : r1 = r := Except.ok.inj h
      rw [← hr]
      exact (mergeStack_some it inv r1 hm).1
    | none =>
      rw [hm] at h
      cases hf : Inventory.fillEmpty it inv with
      | some r1 =>
        rw [hf] at h
        have hr : r1 = r := Except.ok.inj h
        rw [← hr]
        exact (fillEmpty_some it h0 inv r1 hf).1
      | none =>
        rw [hf] at h
        cases h

theorem addOld_items (codec : ItemCodec) (s : Session) (actions : List InventoryAction) :
    ∀ temp r : Inventory, verifyTransaction.addOld codec s actions temp = .ok r →
      itemsOf r = itemsOf temp + itemsOf (oldItems codec actions) ∧
        ∀ a ∈ actions, s.holdsOld codec a := by
  induction actions with
  | nil =>
    intro temp r h
    simp only [verifyTransaction.addOld, Except.ok.injEq] at h
    subst h
    simp [oldItems]
  | cons b rest ih =>
    intro temp r h
    cases h1 : s.invByID b.WindowID with
    | none => simp [verifyTransaction.addOld, h1] at h
    | some inv =>
      cases h2 : inv.Item b.InventorySlot with
      | error e2 => simp [verifyTransaction.addOld, h1, h2] at h
      | ok actualOld =>
        by_cases hc : (!actualOld.Comparable (stackToItem codec b.OldItem) ||
            actualOld.Count != (stackToItem codec b.OldItem).Count) = true
        · simp only [verifyTransaction.addOld, h1, h2, hc, if_true] at h
          cases h
        · cases h3 : Inventory.AddItem temp (stackToItem codec b.OldItem) with
          | error e3 =>
            simp only [verifyTransaction.addOld, h1, h2, hc, h3] at h
            cases h
          | ok t =>
            simp only [verifyTransaction.addOld, h1, h2, hc, h3] at h
            obtain ⟨e1, e2⟩ := ih t r h
            have heq : actualOld = stackToItem codec b.OldItem := by
              simp only [Stack.Comparable, Stack.Count, Bool.or_eq_true, Bool.not_eq_true',
                beq_eq_false_iff_ne, ne_eq, bne_iff_ne, not_or, not_not] at hc
              cases actualOld
              cases hst : stackToItem codec b.OldItem
              rw [hst] at hc
              simp only at hc
              rw [hc.1, hc.2]
            constructor
            · rw [e1, AddItem_items temp t _ h3]
              simp [oldItems, add_assoc]
            · intro a ha
              rcases List.mem_cons.mp ha with rfl | hin
              · unfold Session.holdsOld
                rw [itemAt_eq_some]
                exact ⟨inv, h1, heq ▸ h2⟩
              · exact e2 a hin

theorem verify_none_balanced (codec : ItemCodec) (s : Session)
    (actions : List InventoryAction) (h : s.verifyTransaction codec actions = none) :
    itemsOf (oldItems codec actions) = itemsOf (newItems codec actions) ∧
      ∀ a ∈ actions, s.holdsOld codec a := by
  unfold Session.verifyTransaction at h
  cases h1 : verifyTransaction.addOld codec s actions (Inventory.New 128) with
  | error e => simp [h1] at h
  | ok temp =>
    obtain ⟨e1, e2⟩ := addOld_items codec s actions _ temp h1
    rw [itemsOf_New, zero_add] at e1
    refine ⟨?_, e2⟩
    cases hr : verifyTransaction.removeNew codec actions temp with
    | error e => simp [h1, hr] at h
    | ok r =>
      simp only [h1, hr] at h
      have he : r.Empty = true := by
        by_contra hne
        simp [hne] at h
      rw [Inventory.Empty_iff] at he
      have := removeNew_items codec actions temp r hr
      rw [he, add_zero, e1] at this
      exact this

theorem items_stored (codec : ItemCodec) (s : Session) (id : Int) (old inv : Inventory)
    (slot : Nat) (item : Stack) (h : s.invByID id = some old) :
    (s.stored codec id inv slot item).items + itemsOf old = s.items + itemsOf inv := by
  rcases invByID_eq_some_cases s id old h with ⟨rfl, rfl⟩ | ⟨rfl, rfl⟩ | ⟨rfl, rfl⟩
  · have : (s.stored codec WindowIDInventory inv slot item).items =
        itemsOf inv + itemsOf s.offHand + itemsOf s.ui := by
      simp only [Session.stored, Session.invSlotChanged, Session.writePacket, if_true]
      split_ifs <;> rfl
    rw [this]
    unfold Session.items
    abel
  · have h0 : WindowIDOffHand ≠ WindowIDInventory := by decide
    have : (s.stored codec WindowIDOffHand inv slot item).items =
        itemsOf s.inv + itemsOf inv + itemsOf s.ui := by
      simp only [Session.stored, Session.offHandSlotChanged, Session.writePacket, if_true,
        if_neg h0]
      split_ifs <;> rfl
    rw [this]
    unfold Session.items
    abel
  · have h0 : WindowIDUI ≠ WindowIDInventory := by decide
    have h1 : WindowIDUI ≠ WindowIDOffHand := by decide
    have : (s.stored codec WindowIDUI inv slot item).items =
        itemsOf s.inv + itemsOf s.offHand + itemsOf inv := by
      simp only [Session.stored, if_true, if_neg h0, if_neg h1]
      rfl
    rw [this]
    unfold Session.items
    abel

theorem items_next (codec : ItemCodec) (s : Session) (a : InventoryAction)
    (h : s.holdsOld codec a) :
    (executeTransaction.next codec s a).items +
        Multiset.replicate (stackToItem codec a.OldItem).count (stackToItem codec a.OldItem).item =
      s.items +
        Multiset.replicate (stackToItem codec a.NewItem).count
          (stackToItem codec a.NewItem).item := by
  obtain ⟨inv, hinv, hitem⟩ := (itemAt_eq_some _ _ _ _).mp h
  have hget : inv.get? a.InventorySlot = some (stackToItem codec a.OldItem) := by
    unfold Inventory.Item at hitem
    cases hg : inv.get? a.InventorySlot with
    | none => rw [hg] at hitem; cases hitem
    | some v =>
      rw [hg] at hitem
      rw [Except.ok.inj hitem]
  have hlt : a.InventorySlot < inv.length := (List.get?_eq_some.mp hget).1
  have hnext : executeTransaction.next codec s a =
      s.stored codec a.WindowID (inv.set a.InventorySlot (stackToItem codec a.NewItem))
        a.InventorySlot (stackToItem codec a.NewItem) := by
    simp only [executeTransaction.next, executeTransaction.step, hinv, Inventory.SetItem,
      hlt, if_true]
  have h1 := items_stored codec s a.WindowID inv
    (inv.set a.InventorySlot (stackToItem codec a.NewItem)) a.InventorySlot
    (stackToItem codec a.NewItem) hinv
  have h2 := itemsOf_set inv a.InventorySlot (stackToItem codec a.NewItem)
    (stackToItem codec a.OldItem) hget
  rw [hnext]
  have h3 : (s.stored codec a.WindowID (inv.set a.InventorySlot (stackToItem codec a.NewItem))
        a.InventorySlot (stackToItem codec a.NewItem)).items +
      Multiset.replicate (stackToItem codec a.OldItem).count (stackToItem codec a.OldItem).item
        + itemsOf inv =
      s.items + Multiset.replicate (stackToItem codec a.NewItem).count
          (stackToItem codec a.NewItem).item + itemsOf inv := by
    calc _ = ((s.stored codec a.WindowID
              (inv.set a.InventorySlot (stackToItem codec a.NewItem))
              a.InventorySlot (stackToItem codec a.NewItem)).items + itemsOf inv) +
            Multiset.replicate (stackToItem codec a.OldItem).count
              (stackToItem codec a.OldItem).item := by abel
      _ = s.items + (itemsOf (inv.set a.InventorySlot (stackToItem codec a.NewItem)) +
            Multiset.replicate (stackToItem codec a.OldItem).count
              (stackToItem codec a.OldItem).item) := by rw [h1]; abel
      _ = _ := by rw [h2]; abel
  exact add_right_cancel h3

theorem exec_items (codec : ItemCodec) (actions : List InventoryAction) :
    ∀ s : Session, (namedSlots actions).Nodup → (∀ a ∈ actions, s.holdsOld codec a) →
      (Session.executeTransaction codec s actions).items + itemsOf (oldItems codec actions) =
        s.items + itemsOf (newItems codec actions) := by
  induction actions with
  | nil => intro s _ _; simp [Session.executeTransaction, oldItems, newItems]
  | cons b rest ih =>
    intro s hnd hold
    simp only [namedSlots, List.map_cons, List.nodup_cons] at hnd
    have hold1 : ∀ a ∈ rest, (executeTransaction.next codec s b).holdsOld codec a := by
      intro a ha
      unfold Session.holdsOld
      rw [itemAt_next]
      have hne : ¬ (a.WindowID = b.WindowID ∧ a.InventorySlot = b.InventorySlot ∧
          s.resolves b) := by
        rintro ⟨h1, h2, _⟩
        apply hnd.1
        rw [← h1, ← h2]
        exact List.mem_map_of_mem (fun a => (a.WindowID, a.InventorySlot)) ha
      rw [if_neg hne]
      exact hold a (List.mem_cons_of_mem _ ha)
    have e1 := ih (executeTransaction.next codec s b) hnd.2 hold1
    have e2 := items_next codec s b (hold b (List.mem_cons_self _ _))
    rw [executeTransaction_cons]
    simp only [oldItems, newItems, List.map_cons, itemsOf_cons] at e1 ⊢
    calc _ = ((Session.executeTransaction codec (executeTransaction.next codec s b) rest).items
              + itemsOf (List.map (fun a => stackToItem codec a.OldItem) rest)) +
            Multiset.replicate (stackToItem codec b.OldItem).count
              (stackToItem codec b.OldItem).item := by abel
      _ = ((executeTransaction.next codec s b).items +
            Multiset.replicate (stackToItem codec b.OldItem).count
              (stackToItem codec b.OldItem).item) +
            itemsOf (List.map (fun a => stackToItem codec a.NewItem) rest) := by
          rw [e1]; abel
      _ = _ := by rw [e2]; abel

/-- An accepted normal transaction whose actions name pairwise distinct
(window, slot) pairs creates and destroys no item: the items held across the
main, offhand and UI inventories are the same multiset afterwards. -/
theorem handle_accepted_distinct_conserves (codec : ItemCodec) (s : Session)
    (actions : List InventoryAction)
    (hacc : (s.handleInventoryTransaction codec ⟨actions, .Normal⟩).1 = none)
    (hd : (namedSlots actions).Nodup) :
    (s.handleInventoryTransaction codec ⟨actions, .Normal⟩).2.items = s.items := by
  by_cases hne : actions = []
  · subst hne
    simp [Session.handleInventoryTransaction]
  · cases hv : s.verifyTransaction codec actions with
    | some e =>
      rw [handle_normal_of_verify_some codec s actions hne e hv] at hacc
      simp at hacc
    | none =>
      rw [handle_normal_of_verify_none codec s actions hne hv]
      obtain ⟨hbal, hold⟩ := verify_none_balanced codec s actions hv
      have hold1 : ∀ a ∈ actions, Session.holdsOld codec { s with inTransaction := 1 } a :=
        fun a ha => hold a ha
      have e := exec_items codec actions { s with inTransaction := 1 } hd hold1
      rw [hbal] at e
      have e2 := add_right_cancel e
      exact e2

/-- C11 at its failing input: the entity 7 is registered under handle 2; after
removeFromPlayerList for it the entity is no key of the entity-to-handle map
any more, but handle 2 is still a key of the handle-to-entity map and still
resolves to the removed entity. -/
theorem removeFromPlayerList_keeps_handle :
    (emptySession.addToPlayerList (.other ⟨7⟩)).entityRuntimeIDs.lookup ⟨7⟩ = some 2 ∧
    (emptySession.addToPlayerList (.other ⟨7⟩)).entities.lookup 2 = some ⟨7⟩ ∧
    ((emptySession.addToPlayerList (.other ⟨7⟩)).removeFromPlayerList
      (.other ⟨7⟩)).entityRuntimeIDs.lookup ⟨7⟩ = none ∧
    ((emptySession.addToPlayerList (.other ⟨7⟩)).removeFromPlayerList
      (.other ⟨7⟩)).entities.lookup 2 = some ⟨7⟩ := by
  refine ⟨by decide, by decide, by decide, by decide⟩

/-- C14: a UseItemOnEntity transaction whose target handle is no key of the
handle-to-entity map makes handleInventoryTransaction return an error and leave
the session as it was: no primitive of the controllable entity is called and no
inventory, registry or flag changes. -/
theorem useItemOnEntity_unknown_target_rejected (codec : ItemCodec) (s : Session)
    (actions : List InventoryAction) (target actionType : Nat)
    (h : target ∉ s.entities) :
    s.handleInventoryTransaction codec ⟨actions, .UseItemOnEntity target actionType⟩ =
        (some (.noEntity target), s) ∧
      (s.handleInventoryTransaction codec
        ⟨actions, .UseItemOnEntity target actionType⟩).2.c.calls = s.c.calls := by
  have hl : s.entityFromRuntimeID target = none := by
    unfold Session.entityFromRuntimeID
    exact AList.lookup_eq_none.mpr h
  have hres : s.handleInventoryTransaction codec
      ⟨actions, .UseItemOnEntity target actionType⟩ = (some (.noEntity target), s) := by
    simp only [Session.handleInventoryTransaction, hl]
  rw [hres]
  exact ⟨rfl, rfl⟩

/-- Witness of C14: the empty session knows no entity under handle 5; an attack
on it is rejected and calls nothing. -/
theorem useItemOnEntity_unknown_target_rejected_witness :
    emptySession.handleInventoryTransaction exampleCodec
        ⟨[], .UseItemOnEntity 5 UseItemOnEntityActionAttack⟩ =
        (some (.noEntity 5), emptySession) ∧
      (emptySession.handleInventoryTransaction exampleCodec
        ⟨[], .UseItemOnEntity 5 UseItemOnEntityActionAttack⟩).2.c.calls =
          emptySession.c.calls :=
  useItemOnEntity_unknown_target_rejected exampleCodec emptySession [] 5
    UseItemOnEntityActionAttack (by decide)

/-- C15: a normal transaction with an empty action list is a trivial success:
handleInventoryTransaction returns no error and leaves the session, with every
inventory slot and the transaction-in-progress flag, as it was. -/
theorem empty_transaction_trivial_success (codec : ItemCodec) (s : Session) :
    s.handleInventoryTransaction codec ⟨[], .Normal⟩ = (none, s) ∧
      (s.handleInventoryTransaction codec ⟨[], .Normal⟩).2.inv = s.inv ∧
      (s.handleInventoryTransaction codec ⟨[], .Normal⟩).2.offHand = s.offHand ∧
      (s.handleInventoryTransaction codec ⟨[], .Normal⟩).2.ui = s.ui ∧
      (s.handleInventoryTransaction codec ⟨[], .Normal⟩).2.inTransaction =
        s.inTransaction := by
  have hres : s.handleInventoryTransaction codec ⟨[], .Normal⟩ = (none, s) := by
    simp [Session.handleInventoryTransaction]
  rw [hres]
  exact ⟨rfl, rfl, rfl, rfl, rfl⟩

/-- C16: SendGameMode is a function of the game mode alone: it writes an
AdventureSettings packet and a SetPlayerGameType packet whose flags and game
type ID are those of the mode and changes nothing else. Creative, adventure,
spectator and survival have one fixed pair each, the four pairs are pairwise
distinct, and every mode that is none of creative, adventure and spectator has
the survival pair, flags 0 and game type survival. -/
theorem SendGameMode_by_mode :
    (∀ (s : Session) (mode : GameMode), s.SendGameMode mode =
      { s with packets := s.packets ++
          [.AdventureSettings (SendGameMode.flagsAndID mode).1 PermissionLevelMember 1
              memberActionPermissions,
            .SetPlayerGameType (SendGameMode.flagsAndID mode).2] }) ∧
    SendGameMode.flagsAndID .Creative = (AdventureFlagAllowFlight, GameTypeCreative) ∧
    SendGameMode.flagsAndID .Adventure = (AdventureFlagWorldImmutable, GameTypeAdventure) ∧
    SendGameMode.flagsAndID .Spectator =
      (AdventureFlagWorldImmutable ||| AdventureFlagAllowFlight ||| AdventureFlagMuted |||
        AdventureFlagNoClip ||| AdventureFlagNoPVP, GameTypeCreativeSpectator) ∧
    SendGameMode.flagsAndID .Survival = (0, GameTypeSurvival) ∧
    [SendGameMode.flagsAndID .Creative, SendGameMode.flagsAndID .Adventure,
      SendGameMode.flagsAndID .Spectator, SendGameMode.flagsAndID .Survival].Nodup ∧
    (∀ mode : GameMode, mode ≠ .Creative → mode ≠ .Adventure → mode ≠ .Spectator →
      SendGameMode.flagsAndID mode = (0, GameTypeSurvival)) := by
  refine ⟨fun s mode => ?_, by decide, by decide, by decide, by decide, by decide, ?_⟩
  · simp [Session.SendGameMode, Session.writePacket]
  · intro mode h1 h2 h3
    cases mode with
    | Survival => rfl
    | Creative => exact absurd rfl h1
    | Adventure => exact absurd rfl h2
    | Spectator => exact absurd rfl h3
    | Other tag => rfl

/-- Witness of C16: a mode that is none of the four has the survival pair. -/
theorem SendGameMode_by_mode_witness :
    SendGameMode.flagsAndID (.Other 9) = (0, GameTypeSurvival) :=
  SendGameMode_by_mode.2.2.2.2.2.2 (.Other 9) (by decide) (by decide) (by decide)

/-- C20: a response to an outstanding form whose payload is the cancellation
sentinel, the bytes of null, completes the form silently:
handleModalFormResponse returns no error, does not call SubmitJSON and removes
the form from the outstanding forms. -/
theorem handleModalFormResponse_cancelled (s : Session) (pk : ModalFormResponse)
    (h : pk.FormID ∈ s.forms) (hnull : pk.ResponseData = nullBytes) :
    (s.handleModalFormResponse pk).1 = none ∧
      (s.handleModalFormResponse pk).2.submitted = s.submitted ∧
      pk.FormID ∉ (s.handleModalFormResponse pk).2.forms ∧
      (s.handleModalFormResponse pk).2.forms = s.forms.erase pk.FormID := by
  obtain ⟨f, hf⟩ := Option.isSome_iff_exists.mp (AList.lookup_isSome.mpr h)
  have hres : s.handleModalFormResponse pk =
      (none, { s with forms := s.forms.erase pk.FormID }) := by
    simp only [Session.handleModalFormResponse, hf, hnull, if_true]
  rw [hres]
  refine ⟨rfl, rfl, ?_, rfl⟩
  simp only [AList.mem_erase]
  exact fun hc => hc.1 rfl

/-- Witness of C20: the form sent under ID 0 is cancelled by the payload null. -/
theorem handleModalFormResponse_cancelled_witness :
    ((emptySession.SendForm exampleForm 0).handleModalFormResponse ⟨0, nullBytes⟩).1 = none ∧
      ((emptySession.SendForm exampleForm 0).handleModalFormResponse
        ⟨0, nullBytes⟩).2.submitted = (emptySession.SendForm exampleForm 0).submitted ∧
      0 ∉ ((emptySession.SendForm exampleForm 0).handleModalFormResponse
        ⟨0, nullBytes⟩).2.forms ∧
      ((emptySession.SendForm exampleForm 0).handleModalFormResponse ⟨0, nullBytes⟩).2.forms =
        (emptySession.SendForm exampleForm 0).forms.erase 0 :=
  handleModalFormResponse_cancelled (emptySession.SendForm exampleForm 0) ⟨0, nullBytes⟩
    (by decide) rfl

theorem addToPlayerList_other_counter (s : Session) (c : Entity) :
    (s.addToPlayerList (.other c)).currentEntityRuntimeID =
      (s.currentEntityRuntimeID + 1) % 2 ^ 64 := rfl

theorem addToPlayerList_self_counter (s : Session) :
    (s.addToPlayerList .self).currentEntityRuntimeID = s.currentEntityRuntimeID := rfl

theorem removeFromPlayerList_counter (s : Session) (session : Peer) :
    (s.removeFromPlayerList session).currentEntityRuntimeID = s.currentEntityRuntimeID := rfl

theorem addToPlayerList_entities (s : Session) (session : Peer) :
    (s.addToPlayerList session).entities =
      s.entities.insert (addToPlayerList.runtimeID s session) (s.peerEntity session) := by
  cases session <;> rfl

theorem addToPlayerList_entityRuntimeIDs (s : Session) (session : Peer) :
    (s.addToPlayerList session).entityRuntimeIDs =
      s.entityRuntimeIDs.insert (s.peerEntity session) (addToPlayerList.runtimeID s session) := by
  cases session <;> rfl

theorem removeFromPlayerList_entityRuntimeIDs (s : Session) (session : Peer) :
    (s.removeFromPlayerList session).entityRuntimeIDs =
      s.entityRuntimeIDs.erase (s.peerEntity session) := rfl

theorem removeFromPlayerList_entities (s : Session) (session : Peer) :
    (s.removeFromPlayerList session).entities = s.entities.erase 0 := by
  have h : (s.entityRuntimeIDs.erase (s.peerEntity session)).lookup (s.peerEntity session) =
      none := AList.lookup_erase _ _
  simp only [Session.removeFromPlayerList, Session.writePacket, h, Option.getD_none]

theorem allocated_increasing (calls : List PlayerListCall) :
    ∀ s : Session, s.currentEntityRuntimeID + otherAdds calls < 2 ^ 64 →
      (s.allocated calls).Pairwise (· < ·) ∧
        (∀ x ∈ s.allocated calls, s.currentEntityRuntimeID < x) ∧
        (s.allocated calls).length = otherAdds calls := by
  induction calls with
  | nil => intro s _; simp [Session.allocated, otherAdds]
  | cons call rest ih =>
    intro s h
    cases call with
    | add session =>
      cases session with
      | self =>
        simp only [otherAdds] at h
        have := ih (s.addToPlayerList .self) (by rw [addToPlayerList_self_counter]; exact h)
        simpa only [Session.allocated, Session.playerListCall, otherAdds,
          addToPlayerList_self_counter] using this
      | other c =>
        simp only [otherAdds] at h
        have hmod : (s.currentEntityRuntimeID + 1) % 2 ^ 64 = s.currentEntityRuntimeID + 1 :=
          Nat.mod_eq_of_lt (by omega)
        obtain ⟨h1, h2, h3⟩ := ih (s.addToPlayerList (.other c))
          (by rw [addToPlayerList_other_counter, hmod]; omega)
        rw [addToPlayerList_other_counter, hmod] at h2
        simp only [Session.allocated, otherAdds, addToPlayerList.runtimeID, hmod,
          List.pairwise_cons, List.mem_cons, List.length_cons]
        refine ⟨⟨h2, h1⟩, ?_, by rw [h3]⟩
        intro x hx
        rcases hx with rfl | hx
        · omega
        · have := h2 x hx
          omega
    | remove session =>
      simp only [otherAdds] at h
      have := ih (s.removeFromPlayerList session)
        (by rw [removeFromPlayerList_counter]; exact h)
      simpa only [Session.allocated, Session.playerListCall, otherAdds,
        removeFromPlayerList_counter] using this

/-- C12 (amended): as long as the handle counter does not wrap (the counter plus
the number of adds of other sessions stays below 2^64), the handles that a sequence
of addToPlayerList and removeFromPlayerList calls allocates to the entities of
other sessions are strictly increasing in call order, hence pairwise distinct,
and greater than the counter before the sequence; every add of another session
allocates exactly one handle, under which both maps hold the entity afterwards,
and a remove leaves the counter as it is. -/
theorem allocated_handles_strictly_increasing (s : Session) (calls : List PlayerListCall)
    (h : s.currentEntityRuntimeID + otherAdds calls < 2 ^ 64) :
    (s.allocated calls).Pairwise (· < ·) ∧ (s.allocated calls).Nodup ∧
      (∀ x ∈ s.allocated calls, s.currentEntityRuntimeID < x) ∧
      (s.allocated calls).length = otherAdds calls ∧
      (∀ (t : Session) (c : Entity),
        (t.addToPlayerList (.other c)).entities.lookup
            (addToPlayerList.runtimeID t (.other c)) = some c ∧
          (t.addToPlayerList (.other c)).entityRuntimeIDs.lookup c =
            some (addToPlayerList.runtimeID t (.other c))) ∧
      (∀ (t : Session) (session : Peer),
        (t.removeFromPlayerList session).currentEntityRuntimeID =
          t.currentEntityRuntimeID) := by
  obtain ⟨h1, h2, h3⟩ := allocated_increasing calls s h
  refine ⟨h1, ?_, h2, h3, ?_, fun t session => rfl⟩
  · exact h1.imp (fun hlt => Nat.ne_of_lt hlt)
  · intro t c
    rw [addToPlayerList_entities, addToPlayerList_entityRuntimeIDs]
    exact ⟨AList.lookup_insert _, AList.lookup_insert _⟩

/-- Witness of C12: from the empty session, whose counter is 1, adds of the
entities 7, 8 and again 7 with an add of the session itself and a remove in
between allocate the handles 2, 3 and 4. -/
theorem allocated_handles_strictly_increasing_witness :
    emptySession.allocated [.add (.other ⟨7⟩), .add .self, .remove (.other ⟨7⟩),
        .add (.other ⟨8⟩), .add (.other ⟨7⟩)] = [2, 3, 4] ∧
    (emptySession.allocated [.add (.other ⟨7⟩), .add .self, .remove (.other ⟨7⟩),
        .add (.other ⟨8⟩), .add (.other ⟨7⟩)]).Pairwise (· < ·) ∧
    (emptySession.allocated [.add (.other ⟨7⟩), .add .self, .remove (.other ⟨7⟩),
        .add (.other ⟨8⟩), .add (.other ⟨7⟩)]).Nodup :=
  ⟨by decide,
    (allocated_handles_strictly_increasing emptySession
      [.add (.other ⟨7⟩), .add .self, .remove (.other ⟨7⟩), .add (.other ⟨8⟩),
        .add (.other ⟨7⟩)] (by decide)).1,
    (allocated_handles_strictly_increasing emptySession
      [.add (.other ⟨7⟩), .add .self, .remove (.other ⟨7⟩), .add (.other ⟨8⟩),
        .add (.other ⟨7⟩)] (by decide)).2.1⟩

theorem calls_keep_handle_one (own : Entity) (calls : List PlayerListCall) :
    ∀ s : Session, (∀ call ∈ calls, call.forOther own) →
      (otherAdds calls = 0 ∨
        (1 ≤ s.currentEntityRuntimeID ∧ s.currentEntityRuntimeID + otherAdds calls ≤ 2 ^ 64)) →
      s.entities.lookup 1 = some own → s.entityRuntimeIDs.lookup own = some 1 →
      (s.playerListCalls calls).entities.lookup 1 = some own ∧
        (s.playerListCalls calls).entityRuntimeIDs.lookup own = some 1 := by
  induction calls with
  | nil => intro s _ _ h1 h2; exact ⟨h1, h2⟩
  | cons call rest ih =>
    intro s hfor hcnt h1 h2
    have hrest : ∀ call ∈ rest, call.forOther own :=
      fun x hx => hfor x (List.mem_cons_of_mem _ hx)
    have hcall := hfor call (List.mem_cons_self _ _)
    cases call with
    | add session =>
      cases session with
      | self => exact absurd hcall (by simp [PlayerListCall.forOther])
      | other c =>
        have hc : c ≠ own := hcall
        simp only [otherAdds] at hcnt
        have hcnt1 : 1 ≤ s.currentEntityRuntimeID ∧
            s.currentEntityRuntimeID + (otherAdds rest + 1) ≤ 2 ^ 64 := by
          rcases hcnt with h0 | h0
          · omega
          · exact h0
        have hne : (s.currentEntityRuntimeID + 1) % 2 ^ 64 ≠ 1 := by
          by_cases hlt : s.currentEntityRuntimeID + 1 < 2 ^ 64
          · rw [Nat.mod_eq_of_lt hlt]; omega
          · have : s.currentEntityRuntimeID + 1 = 2 ^ 64 := by omega
            rw [this, Nat.mod_self]; omega
        apply ih (s.addToPlayerList (.other c)) hrest
        · rw [addToPlayerList_other_counter]
          by_cases hlt : s.currentEntityRuntimeID + 1 < 2 ^ 64
          · rw [Nat.mod_eq_of_lt hlt]
            right
            omega
          · left
            omega
        · rw [addToPlayerList_entities]
          simp only [addToPlayerList.runtimeID, Session.peerEntity]
          rw [AList.lookup_insert_ne (Ne.symm hne)]
          exact h1
        · rw [addToPlayerList_entityRuntimeIDs]
          simp only [addToPlayerList.runtimeID, Session.peerEntity]
          rw [AList.lookup_insert_ne (Ne.symm hc)]
          exact h2
    | remove session =>
      cases session with
      | self => exact absurd hcall (by simp [PlayerListCall.forOther])
      | other c =>
        have hc : c ≠ own := hcall
        simp only [otherAdds] at hcnt
        apply ih (s.removeFromPlayerList (.other c)) hrest
        · rw [removeFromPlayerList_counter]; exact hcnt
        · rw [removeFromPlayerList_entities, AList.lookup_erase_ne (by decide)]
          exact h1
        · rw [removeFromPlayerList_entityRuntimeIDs]
          simp only [Session.peerEntity]
          rw [AList.lookup_erase_ne (Ne.symm hc)]
          exact h2

/-- C13 (amended): after a session whose handle counter is at the reserved
value 1 adds itself with addToPlayerList, the handle-to-entity map sends 1 to
the own entity of the session and the entity-to-handle map sends that entity to
1, and this still holds after every later sequence of addToPlayerList and
removeFromPlayerList calls for other sessions that has fewer than 2^64 adds. -/
theorem handle_one_is_own_entity (s : Session) (h1 : s.currentEntityRuntimeID = 1) :
    (s.addToPlayerList .self).entities.lookup 1 = some s.self ∧
      (s.addToPlayerList .self).entityRuntimeIDs.lookup s.self = some 1 ∧
      ∀ calls : List PlayerListCall, (∀ call ∈ calls, call.forOther s.self) →
        otherAdds calls < 2 ^ 64 →
        ((s.addToPlayerList .self).playerListCalls calls).entities.lookup 1 = some s.self ∧
          ((s.addToPlayerList .self).playerListCalls calls).entityRuntimeIDs.lookup s.self =
            some 1 := by
  have e1 : (s.addToPlayerList .self).entities.lookup 1 = some s.self := by
    rw [addToPlayerList_entities]
    exact AList.lookup_insert _
  have e2 : (s.addToPlayerList .self).entityRuntimeIDs.lookup s.self = some 1 := by
    rw [addToPlayerList_entityRuntimeIDs]
    exact AList.lookup_insert _
  refine ⟨e1, e2, fun calls hfor hlt => ?_⟩
  exact calls_keep_handle_one s.self calls (s.addToPlayerList .self) hfor
    (Or.inr ⟨by rw [addToPlayerList_self_counter, h1],
      by rw [addToPlayerList_self_counter, h1]; omega⟩) e1 e2

/-- Witness of C13 (amended): the empty session adds itself; after the adds of
the entities 7 and 8 and the remove of 7, handle 1 is still its own entity. -/
theorem handle_one_is_own_entity_witness :
    ((emptySession.addToPlayerList .self).playerListCalls
        [.add (.other ⟨7⟩), .add (.other ⟨8⟩), .remove (.other ⟨7⟩)]).entities.lookup 1 =
        some emptySession.self ∧
      ((emptySession.addToPlayerList .self).playerListCalls
        [.add (.other ⟨7⟩), .add (.other ⟨8⟩), .remove (.other ⟨7⟩)]).entityRuntimeIDs.lookup
          emptySession.self = some 1 :=
  (handle_one_is_own_entity emptySession rfl).2.2
    [.add (.other ⟨7⟩), .add (.other ⟨8⟩), .remove (.other ⟨7⟩)] (by decide) (by decide)

theorem playerListCalls_append (l₁ l₂ : List PlayerListCall) :
    ∀ s : Session, s.playerListCalls (l₁ ++ l₂) = (s.playerListCalls l₁).playerListCalls l₂ := by
  induction l₁ with
  | nil => intro s; rfl
  | cons call rest ih => intro s; exact ih (s.playerListCall call)

theorem replicate_add_counter (c : Entity) (n : Nat) :
    ∀ s : Session, s.currentEntityRuntimeID < 2 ^ 64 →
      (s.playerListCalls (List.replicate n (.add (.other c)))).currentEntityRuntimeID =
        (s.currentEntityRuntimeID + n) % 2 ^ 64 := by
  induction n with
  | zero =>
    intro s hs
    exact (Nat.mod_eq_of_lt hs).symm
  | succ n ih =>
    intro s hs
    rw [List.replicate_succ]
    show ((s.addToPlayerList (.other c)).playerListCalls
      (List.replicate n (.add (.other c)))).currentEntityRuntimeID = _
    rw [ih (s.addToPlayerList (.other c))
      (by rw [addToPlayerList_other_counter]; exact Nat.mod_lt _ (by norm_num)),
      addToPlayerList_other_counter]
    omega

theorem wrap_reassigns_handle_one (c : Entity) (n : Nat) (s : Session)
    (hs : s.currentEntityRuntimeID < 2 ^ 64)
    (hn : (s.currentEntityRuntimeID + n) % 2 ^ 64 = 0) :
    (s.playerListCalls (List.replicate (n + 1) (.add (.other c)))).entities.lookup 1 =
      some c := by
  rw [List.replicate_succ', playerListCalls_append]
  show ((s.playerListCalls (List.replicate n (.add (.other c)))).addToPlayerList
    (.other c)).entities.lookup 1 = some c
  rw [addToPlayerList_entities]
  simp only [addToPlayerList.runtimeID, Session.peerEntity]
  rw [replicate_add_counter c n s hs, hn]
  exact AList.lookup_insert _

/-- Counterexample to C13 as stated: the empty session, whose handle counter is
at the reserved value 1 and whose own entity is the entity 0, adds itself;
after 2^64 later adds of the other entity 7 the counter has wrapped and handle
1 resolves to the entity 7. -/
theorem handle_one_reassigned_after_wrap :
    emptySession.currentEntityRuntimeID = 1 ∧ emptySession.self = ⟨0⟩ ∧
    (emptySession.addToPlayerList .self).entities.lookup 1 = some ⟨0⟩ ∧
    (∀ call ∈ List.replicate (2 ^ 64) (PlayerListCall.add (.other ⟨7⟩)),
      call.forOther emptySession.self) ∧
    ((emptySession.addToPlayerList .self).playerListCalls
      (List.replicate (2 ^ 64) (.add (.other ⟨7⟩)))).entities.lookup 1 = some ⟨7⟩ := by
  refine ⟨rfl, rfl, by decide, ?_, ?_⟩
  · intro call hcall
    rw [List.eq_of_mem_replicate hcall]
    show (⟨7⟩ : Entity) ≠ ⟨0⟩
    decide
  · have hlen : (2 ^ 64 : Nat) = (2 ^ 64 - 1) + 1 := by norm_num
    have hrep : List.replicate (2 ^ 64) (PlayerListCall.add (.other ⟨7⟩)) =
        List.replicate ((2 ^ 64 - 1) + 1) (PlayerListCall.add (.other ⟨7⟩)) :=
      congrArg (fun k => List.replicate k (PlayerListCall.add (.other ⟨7⟩))) hlen
    rw [hrep]
    exact wrap_reassigns_handle_one ⟨7⟩ (2 ^ 64 - 1) (emptySession.addToPlayerList .self)
      (by show (1 : Nat) < 2 ^ 64; norm_num)
      (by show (1 + (2 ^ 64 - 1)) % 2 ^ 64 = 0; norm_num)

theorem step_ok_of_resolves (codec : ItemCodec) (s : Session) (a : InventoryAction)
    (h : s.resolves a) :
    executeTransaction.step codec s a = .ok (executeTransaction.next codec s a) := by
  unfold executeTransaction.next executeTransaction.step
  unfold Session.resolves at h
  cases hinv : s.invByID a.WindowID with
  | none => rw [hinv] at h; exact absurd h id
  | some inv =>
    rw [hinv] at h
    simp only at h
    simp only [Inventory.SetItem, h, if_true]

theorem discarded_nil_of_resolves (codec : ItemCodec) (actions : List InventoryAction) :
    ∀ s : Session, (∀ a ∈ actions, s.resolves a) →
      executeTransaction.discarded codec s actions = [] := by
  induction actions with
  | nil => intro s _; rfl
  | cons a rest ih =>
    intro s h
    have hstep := step_ok_of_resolves codec s a (h a (List.mem_cons_self _ _))
    simp only [executeTransaction.discarded, hstep]
    exact ih _ (fun x hx => (resolves_next codec s a x).mpr (h x (List.mem_cons_of_mem _ hx)))

theorem steps_ok_of_resolves (codec : ItemCodec) (actions : List InventoryAction) :
    ∀ s : Session, (∀ a ∈ actions, s.resolves a) →
      ∀ (n : Nat) (a : InventoryAction), actions.get? n = some a →
        (Session.executeTransaction codec s (actions.take n)).resolves a ∧
          ∃ t, executeTransaction.step codec
            (Session.executeTransaction codec s (actions.take n)) a = .ok t := by
  induction actions with
  | nil => intro s _ n a h; simp at h
  | cons b rest ih =>
    intro s h n a hn
    cases n with
    | zero =>
      simp only [List.get?_cons_zero, Option.some.injEq] at hn
      subst hn
      have hr := h b (List.mem_cons_self _ _)
      exact ⟨hr, _, step_ok_of_resolves codec s b hr⟩
    | succ n =>
      simp only [List.get?_cons_succ] at hn
      rw [List.take_succ_cons, executeTransaction_cons]
      exact ih _
        (fun x hx => (resolves_next codec s b x).mpr (h x (List.mem_cons_of_mem _ hx))) n a hn

/-- C18: after verifyTransaction has accepted an action list, every SetItem call
that executeTransaction makes on it, as handleInventoryTransaction runs it with
the transaction flag set, resolves its window ID to an inventory and targets a
slot in the range of that inventory: each step of the loop succeeds and
executeTransaction discards no error. -/
theorem executeTransaction_never_fails (codec : ItemCodec) (s : Session)
    (actions : List InventoryAction) (hv : s.verifyTransaction codec actions = none) :
    executeTransaction.discarded codec { s with inTransaction := 1 } actions = [] ∧
      ∀ (n : Nat) (a : InventoryAction), actions.get? n = some a →
        (Session.executeTransaction codec { s with inTransaction := 1 }
            (actions.take n)).resolves a ∧
          ∃ t, executeTransaction.step codec
            (Session.executeTransaction codec { s with inTransaction := 1 }
              (actions.take n)) a = .ok t := by
  have hres : ∀ a ∈ actions, Session.resolves { s with inTransaction := 1 } a :=
    fun a ha => verify_none_resolves codec s actions hv a ha
  exact ⟨discarded_nil_of_resolves codec actions _ hres,
    steps_ok_of_resolves codec actions _ hres⟩

/-- Witness of C18: the accepted swap of the examples executes without a
discarded error. -/
theorem executeTransaction_never_fails_witness :
    executeTransaction.discarded exampleCodec { exampleSession with inTransaction := 1 }
      [⟨WindowIDInventory, 3, stackA, stackB⟩, ⟨WindowIDInventory, 5, stackB, stackA⟩] = [] :=
  (executeTransaction_never_fails exampleCodec exampleSession
    [⟨WindowIDInventory, 3, stackA, stackB⟩, ⟨WindowIDInventory, 5, stackB, stackA⟩]
    (by decide)).1

theorem next_flag_packets (codec : ItemCodec) (s : Session) (a : InventoryAction) :
    (executeTransaction.next codec s a).inTransaction = s.inTransaction ∧
      (s.inTransaction = 1 → (executeTransaction.next codec s a).packets = s.packets) := by
  unfold executeTransaction.next executeTransaction.step
  cases hinv : s.invByID a.WindowID with
  | none => exact ⟨rfl, fun _ => rfl⟩
  | some inv =>
    simp only [Inventory.SetItem]
    by_cases hlt : a.InventorySlot < inv.length
    · simp only [hlt, if_true]
      rcases invByID_eq_some_cases s a.WindowID inv hinv with ⟨h, _⟩ | ⟨h, _⟩ | ⟨h, _⟩
      · rw [h]
        simp only [Session.stored, Session.invSlotChanged, Session.writePacket, if_true]
        by_cases hf : s.inTransaction = 1
        · simp [hf]
        · simp [hf]
      · rw [h]
        have h0 : WindowIDOffHand ≠ WindowIDInventory := by decide
        simp only [Session.stored, Session.offHandSlotChanged, Session.writePacket, if_true,
          if_neg h0]
        by_cases hf : s.inTransaction = 1
        · simp [hf]
        · simp [hf]
      · rw [h]
        have h0 : WindowIDUI ≠ WindowIDInventory := by decide
        have h1 : WindowIDUI ≠ WindowIDOffHand := by decide
        simp only [Session.stored, if_true, if_neg h0, if_neg h1]
        exact ⟨trivial, fun _ => trivial⟩
    · simp only [hlt, if_false]
      exact ⟨trivial, fun _ => trivial⟩

theorem exec_flag_packets (codec : ItemCodec) (actions : List InventoryAction) :
    ∀ s : Session, s.inTransaction = 1 →
      (Session.executeTransaction codec s actions).inTransaction = 1 ∧
        (Session.executeTransaction codec s actions).packets = s.packets := by
  induction actions with
  | nil => intro s h; exact ⟨h, rfl⟩
  | cons a rest ih =>
    intro s h
    obtain ⟨h1, h2⟩ := next_flag_packets codec s a
    rw [executeTransaction_cons]
    obtain ⟨e1, e2⟩ := ih (executeTransaction.next codec s a) (by rw [h1, h])
    exact ⟨e1, by rw [e2, h2 h]⟩

/-- C19: when handleInventoryTransaction accepts a normal transaction with
actions, the transaction-in-progress flag is 1 in every state that
executeTransaction passes through, none of these states has a packet queued
that was not queued before the call, and when the handler returns the flag is 0
and still no packet has been queued. A rejected and an empty transaction leave
the session, with its flag, as it was. -/
theorem handleInventoryTransaction_flag (codec : ItemCodec) (s : Session)
    (actions : List InventoryAction) :
    (actions ≠ [] → s.verifyTransaction codec actions = none →
      (∀ n : Nat,
        (Session.executeTransaction codec { s with inTransaction := 1 }
            (actions.take n)).inTransaction = 1 ∧
          (Session.executeTransaction codec { s with inTransaction := 1 }
            (actions.take n)).packets = s.packets) ∧
        (s.handleInventoryTransaction codec ⟨actions, .Normal⟩).2 =
          { Session.executeTransaction codec { s with inTransaction := 1 } actions with
            inTransaction := 0 } ∧
        (s.handleInventoryTransaction codec ⟨actions, .Normal⟩).2.inTransaction = 0 ∧
        (s.handleInventoryTransaction codec ⟨actions, .Normal⟩).2.packets = s.packets) ∧
    (∀ err, (s.handleInventoryTransaction codec ⟨actions, .Normal⟩).1 = some err →
      (s.handleInventoryTransaction codec ⟨actions, .Normal⟩).2 = s) ∧
    (actions = [] → s.handleInventoryTransaction codec ⟨actions, .Normal⟩ = (none, s)) := by
  refine ⟨fun hne hv => ?_, fun err herr => ?_, fun he => ?_⟩
  · rw [handle_normal_of_verify_none codec s actions hne hv]
    refine ⟨fun n => exec_flag_packets codec (actions.take n) _ rfl, rfl, rfl, ?_⟩
    exact (exec_flag_packets codec actions { s with inTransaction := 1 } rfl).2
  · by_cases hne : actions = []
    · subst hne
      simp [Session.handleInventoryTransaction]
    · cases hv : s.verifyTransaction codec actions with
      | some e => rw [handle_normal_of_verify_some codec s actions hne e hv]
      | none =>
        rw [handle_normal_of_verify_none codec s actions hne hv] at herr
        simp at herr
  · subst he
    simp [Session.handleInventoryTransaction]

/-- Witness of C19: the accepted swap of the examples ends with the flag at 0
and no packet queued; the rejected {slot 3: A x1 -> B x1} leaves the session as
it was. -/
theorem handleInventoryTransaction_flag_witness :
    ((exampleSession.handleInventoryTransaction exampleCodec
        ⟨[⟨WindowIDInventory, 3, stackA, stackB⟩, ⟨WindowIDInventory, 5, stackB, stackA⟩],
          .Normal⟩).2.inTransaction = 0 ∧
      (exampleSession.handleInventoryTransaction exampleCodec
        ⟨[⟨WindowIDInventory, 3, stackA, stackB⟩, ⟨WindowIDInventory, 5, stackB, stackA⟩],
          .Normal⟩).2.packets = exampleSession.packets) ∧
    (exampleSession.handleInventoryTransaction exampleCodec
        ⟨[⟨WindowIDInventory, 3, stackA, stackB⟩], .Normal⟩).2 = exampleSession ∧
    emptySession.handleInventoryTransaction exampleCodec ⟨[], .Normal⟩ = (none, emptySession) :=
  ⟨((handleInventoryTransaction_flag exampleCodec exampleSession
      [⟨WindowIDInventory, 3, stackA, stackB⟩, ⟨WindowIDInventory, 5, stackB, stackA⟩]).1
      (by decide) (by decide)).2.2,
    (handleInventoryTransaction_flag exampleCodec exampleSession
      [⟨WindowIDInventory, 3, stackA, stackB⟩]).2.1
      (.invalidTransaction (.notPresent .notPresent)) (by decide),
    (handleInventoryTransaction_flag exampleCodec emptySession []).2.2 rfl⟩

theorem truncate_frac (q : ℚ) :
    q - (truncate q : ℚ) = ((Int.tmod q.num q.den : ℤ) : ℚ) / (q.den : ℚ) := by
  have hd : (0 : ℚ) < (q.den : ℚ) := by exact_mod_cast q.den_pos
  have hq : (q.num : ℚ) = q * (q.den : ℚ) := (Rat.mul_den_eq_num q).symm
  have hnr : ((Int.tmod q.num q.den : ℤ) : ℚ) + (q.den : ℚ) * ((Int.tdiv q.num q.den : ℤ) : ℚ) =
      (q.num : ℚ) := by
    exact_mod_cast Int.tmod_add_tdiv q.num q.den
  unfold truncate
  rw [eq_div_iff (ne_of_gt hd)]
  linarith

theorem truncate_nonneg_bounds (q : ℚ) (h : 0 ≤ q) :
    0 ≤ q - (truncate q : ℚ) ∧ q - (truncate q : ℚ) < 1 := by
  have hd : (0 : ℚ) < (q.den : ℚ) := by exact_mod_cast q.den_pos
  have hn : 0 ≤ q.num := Rat.num_nonneg.mpr h
  have h1 : (0 : ℤ) ≤ Int.tmod q.num q.den := Int.tmod_nonneg _ hn
  have h2 : Int.tmod q.num q.den < (q.den : ℤ) :=
    Int.tmod_lt_of_pos _ (by exact_mod_cast q.den_pos)
  rw [truncate_frac]
  constructor
  · exact div_nonneg (by exact_mod_cast h1) (le_of_lt hd)
  · rw [div_lt_one hd]
    exact_mod_cast h2

theorem truncate_neg (q : ℚ) : truncate (-q) = - truncate q := by
  unfold truncate
  simp [Rat.neg_num, Rat.neg_den]

theorem truncate_nonpos_bounds (q : ℚ) (h : q ≤ 0) :
    -1 < q - (truncate q : ℚ) ∧ q - (truncate q : ℚ) ≤ 0 := by
  have := truncate_nonneg_bounds (-q) (by linarith)
  rw [truncate_neg] at this
  push_cast at this
  constructor <;> linarith [this.1, this.2]

theorem Mod_360 (x : ℚ) : Mod x 360 = 360 * (x / 360 - (truncate (x / 360) : ℚ)) := by
  unfold Mod
  ring

theorem normalizedYaw_range (eYaw : ℚ) : 0 ≤ normalizedYaw eYaw ∧ normalizedYaw eYaw < 360 := by
  unfold normalizedYaw
  rw [Mod_360]
  by_cases hx : 0 ≤ (eYaw - 90) / 360
  · obtain ⟨h1, h2⟩ := truncate_nonneg_bounds _ hx
    split_ifs with hneg
    · constructor <;> linarith
    · constructor <;> linarith
  · obtain ⟨h1, h2⟩ := truncate_nonpos_bounds _ (le_of_lt (not_le.mp hx))
    split_ifs with hneg
    · constructor <;> linarith
    · constructor <;> linarith

theorem Facing_eq (eYaw : ℚ) :
    Facing eYaw =
      if (normalizedYaw eYaw > 0 ∧ normalizedYaw eYaw < 45) ∨
          (normalizedYaw eYaw > 315 ∧ normalizedYaw eYaw < 360) then Face.West
      else if normalizedYaw eYaw > 45 ∧ normalizedYaw eYaw < 135 then Face.North
      else if normalizedYaw eYaw > 135 ∧ normalizedYaw eYaw < 225 then Face.East
      else if normalizedYaw eYaw > 225 ∧ normalizedYaw eYaw < 315 then Face.South
      else ⟨0⟩ := rfl

theorem normalizedYaw_of_range (eYaw : ℚ) (h0 : 0 ≤ eYaw - 90) (h1 : eYaw - 90 < 360) :
    normalizedYaw eYaw = eYaw - 90 := by
  have hq0 : 0 ≤ (eYaw - 90) / 360 := div_nonneg h0 (by norm_num)
  have hq1 : (eYaw - 90) / 360 < 1 := by
    rw [div_lt_one (by norm_num)]
    exact h1
  have ht : truncate ((eYaw - 90) / 360) = 0 := by
    unfold truncate
    apply Int.tdiv_eq_zero_of_lt (Rat.num_nonneg.mpr hq0)
    exact Rat.lt_one_iff_num_lt_denom.mp hq1
  have hm : Mod (eYaw - 90) 360 = eYaw - 90 := by
    unfold Mod
    rw [ht]
    simp
  unfold normalizedYaw
  rw [hm, if_neg (not_lt.mpr h0)]

/-- Facing returns the face 0 exactly at the five yaws that its comparisons
leave out, and a horizontal direction at every other yaw. -/
theorem Facing_zero_iff (eYaw : ℚ) :
    (Facing eYaw = ⟨0⟩ ↔
      normalizedYaw eYaw = 0 ∨ normalizedYaw eYaw = 45 ∨ normalizedYaw eYaw = 135 ∨
        normalizedYaw eYaw = 225 ∨ normalizedYaw eYaw = 315) ∧
    (Facing eYaw = ⟨0⟩ ∨ Facing eYaw = Face.West ∨ Facing eYaw = Face.North ∨
      Facing eYaw = Face.East ∨ Facing eYaw = Face.South) := by
  obtain ⟨h0, h360⟩ := normalizedYaw_range eYaw
  rw [Facing_eq]
  generalize normalizedYaw eYaw = y at h0 h360 ⊢
  constructor
  · constructor
    · intro h
      split_ifs at h with c1 c2 c3 c4
      · exact absurd h (by decide)
      · exact absurd h (by decide)
      · exact absurd h (by decide)
      · exact absurd h (by decide)
      · simp only [not_or, not_and, not_lt] at c1 c2 c3 c4
        by_contra hne
        simp only [not_or] at hne
        obtain ⟨n0, n45, n135, n225, n315⟩ := hne
        rcases lt_trichotomy y 45 with l | l | l
        · have hy0 : 0 < y := lt_of_le_of_ne h0 (Ne.symm n0)
          exact absurd (c1.1 hy0) (not_le.mpr l)
        · exact n45 l
        · rcases lt_trichotomy y 135 with m | m | m
          · exact absurd (c2 l) (not_le.mpr m)
          · exact n135 m
          · rcases lt_trichotomy y 225 with k | k | k
            · exact absurd (c3 m) (not_le.mpr k)
            · exact n225 k
            · rcases lt_trichotomy y 315 with j | j | j
              · exact absurd (c4 k) (not_le.mpr j)
              · exact n315 j
              · exact absurd (c1.2 j) (not_le.mpr h360)
    · intro h
      rcases h with h | h | h | h | h <;> subst h <;> norm_num
  · split_ifs <;> simp

/-- C17 at its failing inputs: for the yaws 90, 135, 225, 315 and 405, where the
yaw less 90 reduced modulo 360 is exactly 0, 45, 135, 225 and 315, Facing
returns the face 0, which is the face down and none of north, south, east and
west. -/
theorem Facing_boundary_not_horizontal :
    Facing 90 = ⟨0⟩ ∧ Facing 135 = ⟨0⟩ ∧ Facing 225 = ⟨0⟩ ∧ Facing 315 = ⟨0⟩ ∧
    Facing 405 = ⟨0⟩ ∧ (⟨0⟩ : Face) = Face.Down ∧
    (⟨0⟩ : Face) ∉ [Face.North, Face.South, Face.East, Face.West] := by
  have e1 : normalizedYaw 90 = 0 := by
    rw [normalizedYaw_of_range 90 (by norm_num) (by norm_num)]; norm_num
  have e2 : normalizedYaw 135 = 45 := by
    rw [normalizedYaw_of_range 135 (by norm_num) (by norm_num)]; norm_num
  have e3 : normalizedYaw 225 = 135 := by
    rw [normalizedYaw_of_range 225 (by norm_num) (by norm_num)]; norm_num
  have e4 : normalizedYaw 315 = 225 := by
    rw [normalizedYaw_of_range 315 (by norm_num) (by norm_num)]; norm_num
  have e5 : normalizedYaw 405 = 315 := by
    rw [normalizedYaw_of_range 405 (by norm_num) (by norm_num)]; norm_num
  refine ⟨(Facing_zero_iff 90).1.mpr (Or.inl e1),
    (Facing_zero_iff 135).1.mpr (Or.inr (Or.inl e2)),
    (Facing_zero_iff 225).1.mpr (Or.inr (Or.inr (Or.inl e3))),
    (Facing_zero_iff 315).1.mpr (Or.inr (Or.inr (Or.inr (Or.inl e4)))),
    (Facing_zero_iff 405).1.mpr (Or.inr (Or.inr (Or.inr (Or.inr e5)))), rfl, by decide⟩

theorem loop_fuel_enough (e : Observer) (maxDistance : ℚ) (f : Nat) :
    ∀ (m : Nat) (i : ℚ) (current : Vec3), maxDistance ≤ i + (f : ℚ) / 2 →
      TargetBlock.loop e maxDistance (f + m) i current =
        TargetBlock.loop e maxDistance f i current := by
  induction f with
  | zero =>
    intro m i current h
    have hi : ¬ i < maxDistance := by
      simp only [Nat.cast_zero, zero_div, add_zero] at h
      exact not_lt.mpr h
    cases m with
    | zero => rfl
    | succ m =>
      simp only [Nat.zero_add, TargetBlock.loop, if_neg hi]
  | succ f ih =>
    intro m i current h
    have hsucc : f + 1 + m = (f + m) + 1 := by omega
    rw [hsucc]
    simp only [TargetBlock.loop]
    by_cases hi : i < maxDistance
    · simp only [if_pos hi]
      rw [ih m (i + 1 / 2) _ (by push_cast at h; linarith)]
    · simp only [if_neg hi]

theorem iterations_enough (maxDistance : ℚ) :
    maxDistance ≤ 0 + ((TargetBlock.iterations maxDistance : Nat) : ℚ) / 2 := by
  unfold TargetBlock.iterations
  have h1 : 2 * maxDistance ≤ ((Int.ceil (2 * maxDistance) : ℤ) : ℚ) := Int.le_ceil _
  have h2 : (Int.ceil (2 * maxDistance) : ℤ) ≤ ((Int.ceil (2 * maxDistance)).toNat : ℤ) :=
    Int.self_le_toNat _
  have h3 : ((Int.ceil (2 * maxDistance) : ℤ) : ℚ) ≤
      (((Int.ceil (2 * maxDistance)).toNat : ℤ) : ℚ) := by exact_mod_cast h2
  have h4 : (((Int.ceil (2 * maxDistance)).toNat : ℤ) : ℚ) =
      (((Int.ceil (2 * maxDistance)).toNat : ℕ) : ℚ) := by norm_cast
  linarith

/-- The loop of TargetBlock ends by its own condition: more runs than
`TargetBlock.iterations` allows change nothing. -/
theorem TargetBlock_total (e : Observer) (maxDistance : ℚ) (m : Nat) :
    TargetBlock.loop e maxDistance (TargetBlock.iterations maxDistance + m) 0
        (TargetBlock.start e) = TargetBlock e maxDistance :=
  loop_fuel_enough e maxDistance _ m 0 _ (iterations_enough maxDistance)

theorem iterations_eq_zero (maxDistance : ℚ) (h : maxDistance ≤ 0) :
    TargetBlock.iterations maxDistance = 0 := by
  unfold TargetBlock.iterations
  have : Int.ceil (2 * maxDistance) ≤ 0 := by
    rw [Int.ceil_le]
    push_cast
    linarith
  exact Int.toNat_eq_zero.mpr this

theorem TargetBlock_of_nonpos (e : Observer) (maxDistance : ℚ) (h : maxDistance ≤ 0) :
    TargetBlock e maxDistance = vec3ToPos (TargetBlock.start e) := by
  unfold TargetBlock
  rw [iterations_eq_zero maxDistance h]
  rfl

theorem lt_of_lt_iterations (maxDistance : ℚ) (k : Nat)
    (h : k < TargetBlock.iterations maxDistance) : (k : ℚ) / 2 < maxDistance := by
  unfold TargetBlock.iterations at h
  have h1 : (k : ℤ) < Int.ceil (2 * maxDistance) := by
    have := (Int.lt_toNat).mp h
    exact this
  have h2 : ((k : ℤ) : ℚ) < 2 * maxDistance := Int.lt_ceil.mp h1
  push_cast at h2
  linarith

theorem loop_spec (e : Observer) (maxDistance : ℚ) (f : Nat) :
    ∀ k : Nat, k + f = TargetBlock.iterations maxDistance →
      (∀ j, 1 ≤ j → j ≤ k → e.isAir (vec3ToPos (TargetBlock.sample e j)) = true) →
      ∃ r, k ≤ r ∧ r ≤ TargetBlock.iterations maxDistance ∧
        TargetBlock.loop e maxDistance f ((k : ℚ) / 2) (TargetBlock.sample e k) =
          vec3ToPos (TargetBlock.sample e r) ∧
        (∀ j, 1 ≤ j → j < r → e.isAir (vec3ToPos (TargetBlock.sample e j)) = true) ∧
        ((k < r ∧ e.isAir (vec3ToPos (TargetBlock.sample e r)) = false) ∨
          (r = TargetBlock.iterations maxDistance ∧
            ∀ j, 1 ≤ j → j ≤ r → e.isAir (vec3ToPos (TargetBlock.sample e j)) = true)) := by
  induction f with
  | zero =>
    intro k hk hair
    refine ⟨k, le_refl _, by omega, rfl, fun j h1 h2 => hair j h1 (by omega), Or.inr ⟨by omega, hair⟩⟩
  | succ f ih =>
    intro k hk hair
    have hi : (k : ℚ) / 2 < maxDistance := lt_of_lt_iterations maxDistance k (by omega)
    simp only [TargetBlock.loop, if_pos hi]
    by_cases hb : e.isAir (vec3ToPos ((TargetBlock.sample e k).Add
        (e.directionVector.Mul (1 / 2)))) = true
    · simp only [hb, Bool.not_true, Bool.false_eq_true, if_false]
      have hidx : (k : ℚ) / 2 + 1 / 2 = ((k + 1 : ℕ) : ℚ) / 2 := by push_cast; ring
      rw [hidx]
      obtain ⟨r, h1, h2, h3, h4, h5⟩ := ih (k + 1) (by omega) (by
        intro j hj1 hj2
        rcases Nat.lt_or_ge j (k + 1) with hlt | hge
        · exact hair j hj1 (by omega)
        · have : j = k + 1 := by omega
          subst this
          exact hb)
      refine ⟨r, by omega, h2, h3, h4, ?_⟩
      rcases h5 with ⟨h6, h7⟩ | h6
      · exact Or.inl ⟨by omega, h7⟩
      · exact Or.inr h6
    · have hb' : e.isAir (vec3ToPos ((TargetBlock.sample e k).Add
          (e.directionVector.Mul (1 / 2)))) = false := by
        simpa using hb
      simp only [hb', Bool.not_false, if_true]
      refine ⟨k + 1, by omega, by omega, rfl, ?_, Or.inl ⟨by omega, hb'⟩⟩
      intro j hj1 hj2
      exact hair j hj1 (by omega)

/-- For a positive `maxDistance` TargetBlock returns the position of one of its
samples: the first sample whose block is not air, or, when the block of every
sample is air, the last sample, whose block is air. -/
theorem TargetBlock_spec (e : Observer) (maxDistance : ℚ) (h : 0 < maxDistance) :
    ∃ r, 1 ≤ r ∧ r ≤ TargetBlock.iterations maxDistance ∧
      TargetBlock e maxDistance = vec3ToPos (TargetBlock.sample e r) ∧
      (∀ j, 1 ≤ j → j < r → e.isAir (vec3ToPos (TargetBlock.sample e j)) = true) ∧
      (e.isAir (vec3ToPos (TargetBlock.sample e r)) = false ∨
        (r = TargetBlock.iterations maxDistance ∧
          e.isAir (vec3ToPos (TargetBlock.sample e r)) = true)) := by
  have hn : 1 ≤ TargetBlock.iterations maxDistance := by
    unfold TargetBlock.iterations
    have : (0 : ℤ) < Int.ceil (2 * maxDistance) := by
      rw [Int.lt_ceil]
      push_cast
      linarith
    omega
  obtain ⟨r, _, h2, h3, h4, h5⟩ := loop_spec e maxDistance
    (TargetBlock.iterations maxDistance) 0 (by omega) (fun j h1 h2 => by omega)
  have h3' : TargetBlock e maxDistance = vec3ToPos (TargetBlock.sample e r) := by
    unfold TargetBlock
    have : ((0 : ℕ) : ℚ) / 2 = 0 := by simp
    rw [this] at h3
    exact h3
  rcases h5 with ⟨h6, h7⟩ | ⟨h6, h7⟩
  · exact ⟨r, by omega, h2, h3', h4, Or.inl h7⟩
  · exact ⟨r, by omega, h2, h3', h4, Or.inr ⟨h6, h7 r (by omega) (le_refl _)⟩⟩

theorem submergedObserver_start :
    vec3ToPos (TargetBlock.start submergedObserver) = ⟨0, 65, 0⟩ := by
  have hy : Int.floor ((64 : ℚ) + 81 / 50) = 65 := by
    rw [Int.floor_eq_iff]
    norm_num
  have h0 : Int.floor ((0 : ℚ) + 0) = 0 := by norm_num
  simp only [TargetBlock.start, submergedObserver, Vec3.Add, vec3ToPos, hy, h0]

theorem SendForm_formID (s : Session) (f : Form) (pick : Nat) :
    (s.SendForm f pick).formID = (s.formID + 1) % 2 ^ 32 := by
  unfold Session.SendForm Session.formCount
  by_cases h : s.forms.keys.length > 10
  · simp only [if_pos h, Session.writePacket]
    cases s.forms.keys.get? (pick % s.forms.keys.length) <;> rfl
  · simp only [if_neg h, Session.writePacket]

theorem SendForm_packets (s : Session) (f : Form) (pick : Nat) :
    (s.SendForm f pick).packets = s.packets ++ [.ModalFormRequest s.formID f.data] := by
  unfold Session.SendForm Session.formCount
  by_cases h : s.forms.keys.length > 10
  · simp only [if_pos h, Session.writePacket]
    cases s.forms.keys.get? (pick % s.forms.keys.length) <;> rfl
  · simp only [if_neg h, Session.writePacket]

theorem SendForm_lookup (s : Session) (f : Form) (pick : Nat) :
    (s.SendForm f pick).forms.lookup s.formID = some f := by
  rw [SendForm_forms]
  split_ifs
  · cases s.forms.keys.get? (pick % s.forms.keys.length) <;> exact AList.lookup_insert _
  · exact AList.lookup_insert _

theorem SendForm_keys (s : Session) (f : Form) (pick : Nat) (k : Nat)
    (hk : k ∈ (s.SendForm f pick).forms) : k = s.formID ∨ k ∈ s.forms := by
  rw [SendForm_forms] at hk
  split_ifs at hk
  · cases hg : s.forms.keys.get? (pick % s.forms.keys.length) with
    | none =>
      rw [hg] at hk
      exact (AList.mem_insert _).mp hk
    | some x =>
      rw [hg] at hk
      rcases (AList.mem_insert _).mp hk with h | h
      · exact Or.inl h
      · exact Or.inr (AList.mem_erase.mp h).2
  · exact (AList.mem_insert _).mp hk

theorem formCalls_invariant (calls : List FormCall) :
    ∀ s : Session, (∀ k, k ∈ s.forms → k < s.formID) → s.formID + sends calls < 2 ^ 32 →
      (∀ k, k ∈ (s.formCalls calls).forms → k < (s.formCalls calls).formID) ∧
        (s.formCalls calls).formID = s.formID + sends calls ∧
        (s.sentIDs calls).Pairwise (· < ·) ∧
        (∀ x ∈ s.sentIDs calls, s.formID ≤ x ∧ x < (s.formCalls calls).formID) ∧
        (s.sentIDs calls).length = sends calls := by
  induction calls with
  | nil =>
    intro s hinv _
    simp [Session.formCalls, Session.sentIDs, sends]
    exact hinv
  | cons call rest ih =>
    intro s hinv hb
    cases call with
    | send f pick =>
      simp only [sends] at hb
      have hmod : (s.formID + 1) % 2 ^ 32 = s.formID + 1 := Nat.mod_eq_of_lt (by omega)
      have hid : (s.SendForm f pick).formID = s.formID + 1 := by
        rw [SendForm_formID, hmod]
      have hinv1 : ∀ k, k ∈ (s.SendForm f pick).forms → k < (s.SendForm f pick).formID := by
        intro k hk
        rw [hid]
        rcases SendForm_keys s f pick k hk with h | h
        · omega
        · have := hinv k h
          omega
      obtain ⟨h1, h2, h3, h4, h5⟩ := ih (s.SendForm f pick) hinv1 (by rw [hid]; omega)
      rw [hid] at h2 h4
      simp only [Session.formCalls, Session.formCall, Session.sentIDs, sends,
        List.pairwise_cons, List.mem_cons, List.length_cons]
      refine ⟨h1, by omega, ⟨fun x hx => by have := (h4 x hx).1; omega, h3⟩, ?_, by rw [h5]⟩
      intro x hx
      rcases hx with rfl | hx
      · constructor
        · exact le_refl _
        · rw [h2]; omega
      · have := h4 x hx
        exact ⟨by omega, this.2⟩
    | respond pk =>
      simp only [sends] at hb
      have hf : (s.handleModalFormResponse pk).2.formID = s.formID := by
        unfold Session.handleModalFormResponse
        cases s.forms.lookup pk.FormID with
        | none => rfl
        | some f =>
          simp only
          split_ifs <;> rfl
      have hinv1 : ∀ k, k ∈ (s.handleModalFormResponse pk).2.forms →
          k < (s.handleModalFormResponse pk).2.formID := by
        intro k hk
        rw [hf]
        rw [handleModalFormResponse_forms] at hk
        exact hinv k (AList.mem_erase.mp hk).2
      obtain ⟨h1, h2, h3, h4, h5⟩ := ih (s.handleModalFormResponse pk).2 hinv1
        (by rw [hf]; exact hb)
      rw [hf] at h2 h4
      simp only [Session.formCalls, Session.formCall, Session.sentIDs, sends]
      exact ⟨h1, h2, h3, h4, h5⟩

/-- C22: SendForm never overwrites an outstanding form. From a session in which
every outstanding form ID is below the next form ID (as in a session without
forms), along a sequence of SendForm and handleModalFormResponse calls whose
sends do not wrap the form ID counter (the next form ID plus the number of
sends stays below 2^32; from 0 that is fewer than 2^32 sends), every key of the
outstanding-forms map is smaller than the next form ID. So the ID that a
further SendForm allocates is not outstanding, the form just sent is
outstanding under that ID when SendForm returns, and the allocated form IDs are
strictly increasing. -/
theorem SendForm_never_overwrites (s : Session) (calls : List FormCall)
    (hinv : ∀ k, k ∈ s.forms → k < s.formID) (hb : s.formID + sends calls < 2 ^ 32) :
    (∀ k, k ∈ (s.formCalls calls).forms → k < (s.formCalls calls).formID) ∧
      (s.formCalls calls).formID ∉ (s.formCalls calls).forms ∧
      (∀ (f : Form) (pick : Nat),
        ((s.formCalls calls).SendForm f pick).forms.lookup (s.formCalls calls).formID = some f ∧
          ((s.formCalls calls).SendForm f pick).packets =
            (s.formCalls calls).packets ++
              [.ModalFormRequest (s.formCalls calls).formID f.data]) ∧
      (s.sentIDs calls).Pairwise (· < ·) ∧
      (s.sentIDs calls).length = sends calls := by
  obtain ⟨h1, _, h3, _, h5⟩ := formCalls_invariant calls s hinv hb
  refine ⟨h1, fun hmem => ?_, fun f pick => ⟨SendForm_lookup _ f pick, SendForm_packets _ f pick⟩,
    h3, h5⟩
  exact absurd (h1 _ hmem) (lt_irrefl _)

/-- Witness of C22: from the empty session, three sends with a response in
between allocate the form IDs 0, 1 and 2, and the next form ID 3 is not
outstanding. -/
theorem SendForm_never_overwrites_witness :
    emptySession.sentIDs [.send exampleForm 0, .send exampleForm 0, .respond ⟨0, [1]⟩,
        .send exampleForm 0] = [0, 1, 2] ∧
    ((∀ k, k ∈ (emptySession.formCalls [.send exampleForm 0, .send exampleForm 0,
          .respond ⟨0, [1]⟩, .send exampleForm 0]).forms →
        k < (emptySession.formCalls [.send exampleForm 0, .send exampleForm 0,
          .respond ⟨0, [1]⟩, .send exampleForm 0]).formID) ∧
      (emptySession.formCalls [.send exampleForm 0, .send exampleForm 0,
          .respond ⟨0, [1]⟩, .send exampleForm 0]).formID ∉
        (emptySession.formCalls [.send exampleForm 0, .send exampleForm 0,
          .respond ⟨0, [1]⟩, .send exampleForm 0]).forms) :=
  ⟨by decide,
    (SendForm_never_overwrites emptySession [.send exampleForm 0, .send exampleForm 0,
      .respond ⟨0, [1]⟩, .send exampleForm 0]
      (by intro k hk; exact absurd hk (AList.not_mem_empty k)) (by decide)).1,
    (SendForm_never_overwrites emptySession [.send exampleForm 0, .send exampleForm 0,
      .respond ⟨0, [1]⟩, .send exampleForm 0]
      (by intro k hk; exact absurd hk (AList.not_mem_empty k)) (by decide)).2.1⟩

theorem allocated_append (l₁ l₂ : List PlayerListCall) :
    ∀ s : Session,
      s.allocated (l₁ ++ l₂) = s.allocated l₁ ++ (s.playerListCalls l₁).allocated l₂ := by
  induction l₁ with
  | nil => intro s; rfl
  | cons call rest ih =>
    intro s
    cases call with
    | add session =>
      cases session with
      | self => exact ih (s.addToPlayerList .self)
      | other c =>
        show addToPlayerList.runtimeID s (.other c) ::
            Session.allocated (s.addToPlayerList (.other c)) (rest ++ l₂) = _
        rw [ih (s.addToPlayerList (.other c))]
        rfl
    | remove session => exact ih (s.removeFromPlayerList session)

theorem otherAdds_replicate (c : Entity) (n : Nat) :
    otherAdds (List.replicate n (PlayerListCall.add (.other c))) = n := by
  induction n with
  | zero => rfl
  | succ n ih =>
    rw [List.replicate_succ]
    show otherAdds (List.replicate n (PlayerListCall.add (.other c))) + 1 = n + 1
    rw [ih]

theorem allocated_replicate_ends (c : Entity) (n : Nat) (s : Session) :
    ∃ mid, s.allocated (List.replicate (n + 1 + 1) (.add (.other c))) =
      (s.currentEntityRuntimeID + 1) % 2 ^ 64 ::
        (mid ++ [(s.currentEntityRuntimeID + (n + 1) + 1) % 2 ^ 64]) := by
  refine ⟨(s.addToPlayerList (.other c)).allocated (List.replicate n (.add (.other c))), ?_⟩
  rw [List.replicate_succ, List.replicate_succ']
  show addToPlayerList.runtimeID s (.other c) ::
      Session.allocated (s.addToPlayerList (.other c))
        (List.replicate n (.add (.other c)) ++ [.add (.other c)]) = _
  rw [allocated_append]
  show (s.currentEntityRuntimeID + 1) % 2 ^ 64 ::
      ((s.addToPlayerList (.other c)).allocated (List.replicate n (.add (.other c))) ++
        [(((s.addToPlayerList (.other c)).playerListCalls
          (List.replicate n (.add (.other c)))).currentEntityRuntimeID + 1) % 2 ^ 64]) = _
  rw [replicate_add_counter c n (s.addToPlayerList (.other c))
    (by rw [addToPlayerList_other_counter]; exact Nat.mod_lt _ (by norm_num)),
    addToPlayerList_other_counter]
  have : (((s.currentEntityRuntimeID + 1) % 2 ^ 64 + n) % 2 ^ 64 + 1) % 2 ^ 64 =
      (s.currentEntityRuntimeID + (n + 1) + 1) % 2 ^ 64 := by omega
  rw [this]

/-- Counterexample to C12 as stated: from the empty session, whose handle
counter is at its initial value 1, a sequence of 2^64 - 1 adds of another
session, fewer than 2^64, allocates the handle 2 first and the handle 0 last:
the counter has wrapped and the last handle is smaller than every handle
allocated before. The same shows in two calls from a counter at 2^64 - 2, which
allocate the handles 2^64 - 1 and 0. -/
theorem allocated_handle_wraps_to_zero :
    emptySession.currentEntityRuntimeID = 1 ∧
    otherAdds (List.replicate (2 ^ 64 - 1) (PlayerListCall.add (.other ⟨7⟩))) = 2 ^ 64 - 1 ∧
    otherAdds (List.replicate (2 ^ 64 - 1) (PlayerListCall.add (.other ⟨7⟩))) < 2 ^ 64 ∧
    (∃ mid, emptySession.allocated (List.replicate (2 ^ 64 - 1) (.add (.other ⟨7⟩))) =
      2 :: (mid ++ [0])) ∧
    ¬ (emptySession.allocated
      (List.replicate (2 ^ 64 - 1) (.add (.other ⟨7⟩)))).Pairwise (· < ·) ∧
    nearWrapSession.allocated [.add (.other ⟨7⟩), .add (.other ⟨8⟩)] = [2 ^ 64 - 1, 0] ∧
    ¬ (nearWrapSession.allocated [.add (.other ⟨7⟩), .add (.other ⟨8⟩)]).Pairwise (· < ·) := by
  have hlen : (2 ^ 64 - 1 : Nat) = (2 ^ 64 - 3) + 1 + 1 := by norm_num
  have hrep : List.replicate (2 ^ 64 - 1) (PlayerListCall.add (.other ⟨7⟩)) =
      List.replicate ((2 ^ 64 - 3) + 1 + 1) (PlayerListCall.add (.other ⟨7⟩)) :=
    congrArg (fun k => List.replicate k (PlayerListCall.add (.other ⟨7⟩))) hlen
  have hends : ∃ mid,
      emptySession.allocated (List.replicate (2 ^ 64 - 1) (.add (.other ⟨7⟩))) =
        2 :: (mid ++ [0]) := by
    obtain ⟨mid, hmid⟩ := allocated_replicate_ends ⟨7⟩ (2 ^ 64 - 3) emptySession
    refine ⟨mid, ?_⟩
    rw [hrep, hmid]
    show (1 + 1) % 2 ^ 64 :: (mid ++ [(1 + (2 ^ 64 - 3 + 1) + 1) % 2 ^ 64]) = _
    norm_num
  have hshort : nearWrapSession.allocated [.add (.other ⟨7⟩), .add (.other ⟨8⟩)] =
      [2 ^ 64 - 1, 0] := by decide
  refine ⟨rfl, otherAdds_replicate _ _, ?_, hends, ?_, hshort, ?_⟩
  · rw [otherAdds_replicate]
    norm_num
  · obtain ⟨mid, hmid⟩ := hends
    rw [hmid, List.pairwise_cons]
    intro h
    exact absurd (h.1 0 (List.mem_append_right _ (List.mem_singleton_self 0))) (by decide)
  · rw [hshort]
    decide

theorem submergedObserver_sample (k : Nat) :
    TargetBlock.sample submergedObserver k = ⟨0, 64 + 81 / 50 + (k : ℚ) / 2, 0⟩ := by
  induction k with
  | zero =>
    simp only [TargetBlock.sample, TargetBlock.start, submergedObserver, Vec3.Add,
      Vec3.mk.injEq]
    norm_num
  | succ k ih =>
    rw [TargetBlock.sample, ih]
    simp only [submergedObserver, Vec3.Add, Vec3.Mul, Vec3.mk.injEq]
    push_cast
    refine ⟨by norm_num, by ring, by norm_num⟩

theorem submergedObserver_sample_air (k : Nat) (hk : 1 ≤ k) :
    66 ≤ (vec3ToPos (TargetBlock.sample submergedObserver k)).y := by
  rw [submergedObserver_sample]
  simp only [vec3ToPos]
  rw [Int.le_floor]
  have : (1 : ℚ) ≤ (k : ℚ) := by exact_mod_cast hk
  push_cast
  linarith

/-- Counterexample to C21 as stated: an entity whose eyes are in a block that is
not air looks straight up and calls TargetBlock with maxDistance 0. The loop
runs zero times and TargetBlock returns the block position of the eyes,
(0, 65, 0). The block there is not air, and it is not a block hit along the
ray either: every sample of the ray lies in another block, whose block is
air. -/
theorem TargetBlock_zero_distance_neither :
    TargetBlock.iterations 0 = 0 ∧
    TargetBlock submergedObserver 0 = ⟨0, 65, 0⟩ ∧
    submergedObserver.isAir (TargetBlock submergedObserver 0) = false ∧
    (∀ k, 1 ≤ k →
      vec3ToPos (TargetBlock.sample submergedObserver k) ≠ TargetBlock submergedObserver 0 ∧
        submergedObserver.isAir (vec3ToPos (TargetBlock.sample submergedObserver k)) = true) := by
  have h0 : TargetBlock submergedObserver 0 = ⟨0, 65, 0⟩ := by
    rw [TargetBlock_of_nonpos _ 0 (le_refl _), submergedObserver_start]
  refine ⟨iterations_eq_zero 0 (le_refl _), h0, by rw [h0]; decide, ?_⟩
  intro k hk
  have hy := submergedObserver_sample_air k hk
  rw [h0]
  constructor
  · intro heq
    rw [heq] at hy
    exact absurd hy (by decide)
  · show decide (66 ≤ (vec3ToPos (TargetBlock.sample submergedObserver k)).y) = true
    exact decide_eq_true hy

/-- C21 (amended): for every entity, world and maxDistance greater than 0
TargetBlock returns the position of one of the samples of its ray: the first
sample whose block is not air, or, when the block of every sample is air, the
last sample, whose block is air. For maxDistance at most 0 the loop runs zero
times and TargetBlock returns the block position of the start, the eyes of the
entity, without a look at its block. The loop ends by its own condition. -/
theorem TargetBlock_first_hit_or_air (e : Observer) (maxDistance : ℚ) :
    (0 < maxDistance →
      ∃ r, 1 ≤ r ∧ r ≤ TargetBlock.iterations maxDistance ∧
        TargetBlock e maxDistance = vec3ToPos (TargetBlock.sample e r) ∧
        (∀ j, 1 ≤ j → j < r → e.isAir (vec3ToPos (TargetBlock.sample e j)) = true) ∧
        (e.isAir (vec3ToPos (TargetBlock.sample e r)) = false ∨
          (r = TargetBlock.iterations maxDistance ∧
            e.isAir (vec3ToPos (TargetBlock.sample e r)) = true))) ∧
    (maxDistance ≤ 0 →
      TargetBlock.iterations maxDistance = 0 ∧
        TargetBlock e maxDistance = vec3ToPos (TargetBlock.start e)) ∧
    (∀ m : Nat,
      TargetBlock.loop e maxDistance (TargetBlock.iterations maxDistance + m) 0
        (TargetBlock.start e) = TargetBlock e maxDistance) :=
  ⟨fun h => TargetBlock_spec e maxDistance h,
    fun h => ⟨iterations_eq_zero maxDistance h, TargetBlock_of_nonpos e maxDistance h⟩,
    fun m => TargetBlock_total e maxDistance m⟩

/-- Witness of C21 (amended): with maxDistance 1 the entity that looks up out of
the water gets the position of a sample of its ray; with maxDistance 0 it gets
the block position of its eyes. -/
theorem TargetBlock_first_hit_or_air_witness :
    (∃ r, 1 ≤ r ∧ r ≤ TargetBlock.iterations 1 ∧
        TargetBlock submergedObserver 1 = vec3ToPos (TargetBlock.sample submergedObserver r) ∧
        (∀ j, 1 ≤ j → j < r →
          submergedObserver.isAir (vec3ToPos (TargetBlock.sample submergedObserver j)) = true) ∧
        (submergedObserver.isAir (vec3ToPos (TargetBlock.sample submergedObserver r)) = false ∨
          (r = TargetBlock.iterations 1 ∧
            submergedObserver.isAir (vec3ToPos (TargetBlock.sample submergedObserver r)) =
              true))) ∧
    (TargetBlock.iterations 0 = 0 ∧
      TargetBlock submergedObserver 0 = vec3ToPos (TargetBlock.start submergedObserver)) :=
  ⟨(TargetBlock_first_hit_or_air submergedObserver 1).1 (by norm_num),
    (TargetBlock_first_hit_or_air submergedObserver 0).2.1 (le_refl _)⟩

end Dragonfly
